import Mathlib

/-!
# Verification of the `deploy-beanstalk` orchestration logic

Shallow embedding of the deployment orchestrator found in `src/deploy.ts`
together with its helpers `helpers/create-app-version.ts`,
`helpers/deploy-app-version-to-env.ts` (the revision used by `deploy.ts`,
which throws `DBTriggerDeployError`) and `helpers/healthiness.ts`
(the final revision, whose dry-run mode still performs the
describe-environments read).

The AWS Elastic Beanstalk client is modelled as an oracle mapping the
history of commands already sent to the response of the next command.
Every remote call appends its command to a trace, so theorems can speak
about exactly which commands a run sends.  `Promise.allSettled` /
`Promise.all` fan-outs are modelled by settling the tasks in array
order (the claims under study only concern which commands are sent,
per-task results and how failures are aggregated, none of which depend
on the interleaving of the concurrent tasks).
-/

namespace DeployBeanstalk

/-- `S3Location` from the AWS SDK: where the artifact lives. -/
structure S3Location where
  s3Bucket : String
  s3Key : String
deriving DecidableEq, Repr

/-- `IAppVersionProps` from `helpers/Interfaces.ts`. -/
structure IAppVersionProps where
  artifact : S3Location
  label : String
  description : String
  errorIfExists : Bool
deriving DecidableEq, Repr

/-- `IBeanstalkEnvironment` from `helpers/Interfaces.ts`. -/
structure IBeanstalkEnvironment where
  app : String
  name : String
deriving DecidableEq, Repr

/-- `IBeanstalkGroup` from `helpers/Interfaces.ts`. -/
structure IBeanstalkGroup where
  versionProps : IAppVersionProps
  environments : List IBeanstalkEnvironment
  name : String
  region : String
deriving DecidableEq, Repr

/-- `IHealthCheckProps` from `helpers/Interfaces.ts`.  `unhealthyStatuses`
is optional (`undefined` is modelled as `none`). -/
structure IHealthCheckProps where
  attempts : Nat
  timeBetweenAttemptsMs : Nat
  unhealthyStatuses : Option (List String) := none
deriving DecidableEq, Repr

/-- `IDeployToGroupProps` from `helpers/Interfaces.ts` (the fields the
orchestration logic reads; logging and credentials are side channels). -/
structure IDeployToGroupProps where
  group : IBeanstalkGroup
  force : Option Bool := none
  preDeployHealthCheckProps : Option IHealthCheckProps := none
  postDeployHealthCheckProps : Option IHealthCheckProps := none

/-- Subset of the AWS `EnvironmentDescription` read by the code.  Every
field is optional in the SDK response. -/
structure EnvironmentDescription where
  environmentName : Option String := none
  status : Option String := none
  healthStatus : Option String := none
  versionLabel : Option String := none
deriving DecidableEq, Repr

/-- The four remote commands the system sends, with the request fields
the code fills in. -/
inductive Command where
  | describeVersions (applicationName : String) (versionLabels : List String)
  | createVersion (applicationName : String) (versionLabel : String)
      (description : String) (artifact : S3Location)
  | describeEnvironments (applicationName : String) (environmentNames : List String)
  | updateEnvironment (applicationName : String) (environmentName : String)
      (versionLabel : String)
deriving DecidableEq, Repr

def Command.isCreateVersion : Command → Bool
  | .createVersion _ _ _ _ => true
  | _ => false

def Command.isUpdateEnvironment : Command → Bool
  | .updateEnvironment _ _ _ => true
  | _ => false

def Command.isDescribeVersions : Command → Bool
  | .describeVersions _ _ => true
  | _ => false

def Command.isDescribeEnvironments : Command → Bool
  | .describeEnvironments _ _ => true
  | _ => false

/-- A command that writes remote state (create-version or trigger-deploy). -/
def Command.isWrite (c : Command) : Bool :=
  c.isCreateVersion || c.isUpdateEnvironment

/-- The error taxonomy of `helpers/Errors.ts`.  `jsError` is a plain
`Error`; the `db*` constructors are the classes of `Errors.ts`, with the
constructor arguments they store (their rendered `message` is derived
from those arguments in the source). -/
inductive Err where
  | jsError (msg : String)
  | dbError (msg : String) (errors : List Err)
  | dbCreateApplicationVersionError (appName : String) (versionLabel : String) (cause : Err)
  | dbTriggerDeployError (envName : String) (versionLabel : String) (cause : Err)
  | dbGroupDeployTriggerError (msg : String) (errors : List Err)
  | dbHealthinessCheckError (msg : String) (errors : List Err)

/-- Responses of the mocked remote client.  Each field receives the
history of commands already sent (so a response may differ between the
first and the second identical request) plus the request arguments, and
returns the optional fields of the response the code reads:
`ApplicationVersions`, `$metadata.httpStatusCode`, `Environments`. -/
structure Oracle where
  onDescribeVersions : List Command → String → List String → Option (List String)
  onCreateVersion : List Command → String → String → Option Nat
  onDescribeEnvironments : List Command → String → List String → Option (List EnvironmentDescription)
  onUpdateEnvironment : List Command → String → String → String → Option Nat

/-- A computation against the remote client: given the oracle and the
trace of commands sent so far, produce a result (or thrown error) and
the extended trace. -/
def M (α : Type) : Type := Oracle → List Command → Except Err α × List Command

/-- JS truthiness of an optional string (`undefined` and `''` are falsy). -/
def truthyStr : Option String → Bool
  | none => false
  | some s => s ≠ ""

/-- Template-literal rendering of a possibly-undefined string. -/
def optStr : Option String → String
  | none => "undefined"
  | some s => s

/-- `statusCode && statusCode >= 200 && statusCode < 300` on the
optional `httpStatusCode` (`0` is falsy in JS). -/
def isOkStatus : Option Nat → Bool
  | none => false
  | some c => (c ≠ 0) && (200 ≤ c) && (c < 300)

/-! ## helpers/create-app-version.ts -/

def alreadyExistsMessage (label : String) : String :=
  "Failed to create new application version " ++ label ++ ", it already exists."

def createFailedMessage (appName : String) : String :=
  "Create application version failed for app " ++ appName ++ ". Response metadata."

/-- `checkApplicationVersionExists`: sends one `DescribeApplicationVersionsCommand`
with `ApplicationName = appName` and `VersionLabels = [version.label]` and
reports whether the returned list is non-empty (`undefined` counts as absent). -/
def checkApplicationVersionExists (version : IAppVersionProps) (appName : String) :
    M Bool := fun o log =>
  let cmd := Command.describeVersions appName [version.label]
  let resp := o.onDescribeVersions log appName [version.label]
  let log1 := log ++ [cmd]
  match resp with
  | some vs => (Except.ok (vs.length > 0), log1)
  | none => (Except.ok false, log1)

/-- `createApplicationVersion`: in dry-run mode returns before any command
is sent; otherwise sends `CreateApplicationVersionCommand` and accepts only
a 2xx `httpStatusCode`. -/
def createApplicationVersion (version : IAppVersionProps) (appName : String)
    (dryRun : Bool) : M Unit := fun o log =>
  if dryRun then (Except.ok (), log)
  else
    let cmd := Command.createVersion appName version.label version.description version.artifact
    let resp := o.onCreateVersion log appName version.label
    let log1 := log ++ [cmd]
    if isOkStatus resp then (Except.ok (), log1)
    else (Except.error (Err.jsError (createFailedMessage appName)), log1)

/-- `create`: ensure the application version exists; any failure is wrapped
in a `DBCreateApplicationVersionError` naming the application and label. -/
def create (version : IAppVersionProps) (appName : String) (dryRun : Bool) :
    M Unit := fun o log =>
  match checkApplicationVersionExists version appName o log with
  | (Except.ok found, log1) =>
    if found then
      if version.errorIfExists then
        (Except.error (Err.dbCreateApplicationVersionError appName version.label
          (Err.jsError (alreadyExistsMessage version.label))), log1)
      else (Except.ok (), log1)
    else
      match createApplicationVersion version appName dryRun o log1 with
      | (Except.ok u, log2) => (Except.ok u, log2)
      | (Except.error e, log2) =>
        (Except.error (Err.dbCreateApplicationVersionError appName version.label e), log2)
  | (Except.error e, log1) =>
    (Except.error (Err.dbCreateApplicationVersionError appName version.label e), log1)

/-! ## helpers/deploy-app-version-to-env.ts (revision used by deploy.ts) -/

def triggerFailedMessage : String := "Response metadata."

/-- `deployApplicationVersion`: in dry-run (`force = false`) returns before
any command is sent; otherwise sends `UpdateEnvironmentCommand` and accepts
only a 2xx `httpStatusCode`. -/
def deployApplicationVersion (env : IBeanstalkEnvironment) (version : IAppVersionProps)
    (force : Bool) : M Unit := fun o log =>
  if !force then (Except.ok (), log)
  else
    let cmd := Command.updateEnvironment env.app env.name version.label
    let resp := o.onUpdateEnvironment log env.app env.name version.label
    let log1 := log ++ [cmd]
    if isOkStatus resp then (Except.ok (), log1)
    else (Except.error (Err.jsError triggerFailedMessage), log1)

/-- `deploy`: one environment's trigger; failures become
`DBTriggerDeployError` naming the environment and label. -/
def deploy (env : IBeanstalkEnvironment) (version : IAppVersionProps)
    (force : Bool) : M Unit := fun o log =>
  match deployApplicationVersion env version force o log with
  | (Except.ok u, log1) => (Except.ok u, log1)
  | (Except.error e, log1) =>
    (Except.error (Err.dbTriggerDeployError env.name version.label e), log1)

/-! ## helpers/healthiness.ts (final revision) -/

def AWS_EB_HEALTH_CHECK_UNHEALTHY_STATES : List String :=
  ["Severe", "Degraded", "Warning"]

/-- The private health-check props assembled by `deploy.ts` for
`waitForGroupHealthiness`. -/
structure HealthProps where
  attempts : Nat
  timeBetweenAttemptsMs : Nat
  unhealthyStatuses : Option (List String)
  checkVersion : Bool
  force : Bool
  group : IBeanstalkGroup

structure EnvStatusEntry where
  envDesc : EnvironmentDescription
  msg : String
deriving DecidableEq, Repr

structure IBeanstalkHealthStatuses where
  healthy : List EnvStatusEntry
  unhealthy : List EnvStatusEntry
deriving DecidableEq, Repr

def statusMissingMessage (envDesc : EnvironmentDescription) : String :=
  "Beanstalk status for '" ++ optStr envDesc.environmentName ++
    "' could not be retrieved. Cannot proceed safely."

def readyHealthyMessage (envDesc : EnvironmentDescription) : String :=
  "Beanstalk environment '" ++ optStr envDesc.environmentName ++ "' is ready and healthy!"

def readyHealthyVersionMessage (envDesc : EnvironmentDescription) (label : String) : String :=
  "Beanstalk environment '" ++ optStr envDesc.environmentName ++
    "' is ready, healthy, and with expected version " ++ label ++ "!"

def wrongVersionMessage (envDesc : EnvironmentDescription) (label : String) : String :=
  "Beanstalk environment '" ++ optStr envDesc.environmentName ++
    "' is ready but not the expected version '" ++ label ++ "'"

def notReadyMessage (envDesc : EnvironmentDescription) : String :=
  "Beanstalk environment '" ++ optStr envDesc.environmentName ++ "' is '" ++
    optStr envDesc.status ++ "' and '" ++ optStr envDesc.healthStatus ++ "'..."

/-- One step of the `reduce` in `getEnvironmentsHealth`: classify a single
returned environment description, or throw when `Status`/`HealthStatus`
is missing (or empty, which is falsy in JS). -/
def classifyEnvironment (unhealthyStatuses : List String)
    (expectedVersionLabel : Option String) (acc : IBeanstalkHealthStatuses)
    (envDesc : EnvironmentDescription) : Except Err IBeanstalkHealthStatuses :=
  if !(truthyStr envDesc.status && truthyStr envDesc.healthStatus) then
    Except.error (Err.jsError (statusMissingMessage envDesc))
  else
    let isInHealthyState := !(unhealthyStatuses.contains (optStr envDesc.healthStatus))
    if envDesc.status == some "Ready" && isInHealthyState then
      if !(truthyStr expectedVersionLabel) then
        Except.ok { acc with healthy := acc.healthy ++ [⟨envDesc, readyHealthyMessage envDesc⟩] }
      else if envDesc.versionLabel == expectedVersionLabel then
        Except.ok { acc with healthy :=
          acc.healthy ++ [⟨envDesc, readyHealthyVersionMessage envDesc (optStr expectedVersionLabel)⟩] }
      else
        Except.ok { acc with unhealthy :=
          acc.unhealthy ++ [⟨envDesc, wrongVersionMessage envDesc (optStr expectedVersionLabel)⟩] }
    else
      Except.ok { acc with unhealthy := acc.unhealthy ++ [⟨envDesc, notReadyMessage envDesc⟩] }

/-- `getEnvironmentsHealth`: the `reduce` partitioning returned
environment descriptions into healthy and unhealthy, in order. -/
def getEnvironmentsHealth (envs : List EnvironmentDescription)
    (unhealthyStatuses : List String) (expectedVersionLabel : Option String) :
    Except Err IBeanstalkHealthStatuses :=
  envs.foldlM (classifyEnvironment unhealthyStatuses expectedVersionLabel)
    { healthy := [], unhealthy := [] }

/-- `groupEnvsByApp`: map from application name to its environments, in
first-occurrence insertion order (JS object key order for string keys). -/
def groupEnvsByApp (envs : List IBeanstalkEnvironment) :
    List (String × List IBeanstalkEnvironment) :=
  envs.foldl (fun acc env =>
    if acc.any (fun p => p.fst = env.app) then
      acc.map (fun p => if p.fst = env.app then (p.fst, p.snd ++ [env]) else p)
    else acc ++ [(env.app, [env])]) []

def noEnvironmentsMessage (key : String) : String :=
  "Failed to check status for Environments in App '" ++ key ++ "'"

def missingEnvsMessage (missing : List String) : String :=
  "The following Beanstalk Environments either do not exist or were not found: " ++
    String.intercalate ", " missing

/-- The loop body of `getGroupHealth` over the per-application batches:
describe each batch (always, also in dry-run), fail hard when the response
is absent or its length does not match the requested list, then — only
when `force` — classify and accumulate. -/
def getGroupHealthAux (props : HealthProps) :
    List (String × List IBeanstalkEnvironment) → IBeanstalkHealthStatuses →
    M IBeanstalkHealthStatuses
  | [], statuses => fun _ log => (Except.ok statuses, log)
  | (key, envs) :: rest, statuses => fun o log =>
    let envNames := envs.map (fun e => e.name)
    let resp := o.onDescribeEnvironments log key envNames
    let log1 := log ++ [Command.describeEnvironments key envNames]
    match resp with
    | none => (Except.error (Err.jsError (noEnvironmentsMessage key)), log1)
    | some envDescs =>
      if envDescs.length ≠ envs.length then
        (Except.error (Err.jsError (missingEnvsMessage
          (envNames.filter (fun nm =>
            !(envDescs.any (fun d => d.environmentName == some nm)))))), log1)
      else if !props.force then
        getGroupHealthAux props rest statuses o log1
      else
        match getEnvironmentsHealth envDescs
            (props.unhealthyStatuses.getD AWS_EB_HEALTH_CHECK_UNHEALTHY_STATES)
            (if props.checkVersion then some props.group.versionProps.label else none) with
        | Except.error e => (Except.error e, log1)
        | Except.ok part =>
          getGroupHealthAux props rest
            ⟨statuses.healthy ++ part.healthy, statuses.unhealthy ++ part.unhealthy⟩ o log1

/-- `getGroupHealth`. -/
def getGroupHealth (props : HealthProps) : M IBeanstalkHealthStatuses :=
  getGroupHealthAux props (groupEnvsByApp props.group.environments)
    { healthy := [], unhealthy := [] }

def couldNotCheckMessage : String := "Could not check group health."

def notHealthyMessage (attempts : Nat) : String :=
  "Beanstalks are not healthy after " ++ toString attempts ++ " attempt(s)."

def unexpectedLoopEndError : Err :=
  Err.dbHealthinessCheckError "Unexpected error checking group health."
    [Err.jsError "Reached end of for loop...should never."]

/-- The `for (let attempt = 1; attempt <= props.attempts; attempt++)` loop
of `waitForGroupHealthiness`, by remaining attempts: fuel `0` is the
fall-through throw after the loop; on each attempt a `getGroupHealth`
failure is immediately wrapped in a `DBHealthinessCheckError`; in dry-run
(`force = false`) `allAreHealthy` holds unconditionally.  The sleep
between attempts has no observable effect in this model. -/
def waitForGroupHealthinessAux (props : HealthProps) : Nat → M Unit
  | 0 => fun _ log => (Except.error unexpectedLoopEndError, log)
  | Nat.succ n => fun o log =>
    match getGroupHealth props o log with
    | (Except.error err, log1) =>
      (Except.error (Err.dbHealthinessCheckError couldNotCheckMessage [err]), log1)
    | (Except.ok statuses, log1) =>
      let isLastAttempt : Bool := n == 0
      let allAreHealthy : Bool :=
        !props.force || (statuses.healthy.length == props.group.environments.length)
      if isLastAttempt && !allAreHealthy then
        (Except.error (Err.dbHealthinessCheckError (notHealthyMessage props.attempts)
          (statuses.unhealthy.map (fun s => Err.jsError s.msg))), log1)
      else if allAreHealthy then (Except.ok (), log1)
      else waitForGroupHealthinessAux props n o log1

/-- `waitForGroupHealthiness`. -/
def waitForGroupHealthiness (props : HealthProps) : M Unit :=
  waitForGroupHealthinessAux props props.attempts

/-! ## deploy.ts -/

def DEFAULT_HEALTH_CHECK_PROPS : IHealthCheckProps :=
  { attempts := 5, timeBetweenAttemptsMs := 60000, unhealthyStatuses := none }

def asyncFailedMessage : String := "At least one async process failed as indicated above."

/-- The list of distinct applications among the group's environments, in
first-occurrence order — the `appsWithCreatedVersions` accumulation of
`createAppVersionsForGroup`. -/
def dedupApps (envs : List IBeanstalkEnvironment) : List String :=
  envs.foldl (fun acc env => if acc.contains env.app then acc else acc ++ [env.app]) []

/-- `Promise.allSettled` over unit tasks, settled in array order: every
task runs to completion, rejections are collected in order. -/
def settleAll : List (M Unit) → M (List Err)
  | [] => fun _ log => (Except.ok [], log)
  | t :: rest => fun o log =>
    let r1 := t o log
    let r2 := settleAll rest o r1.snd
    match r2.fst with
    | Except.ok es =>
      (Except.ok (match r1.fst with | Except.ok _ => es | Except.error e => e :: es), r2.snd)
    | Except.error e => (Except.error e, r2.snd)

/-- `createAppVersionsForGroup` composed with `verifyPromisesSettled`:
one `create` task per distinct application (`dryRun = !props.force`),
all settled; if any rejected, throw a `DBError` aggregating the reasons. -/
def createAppVersionsForGroup (props : IDeployToGroupProps) : M Unit := fun o log =>
  match settleAll ((dedupApps props.group.environments).map
      (fun appName => create props.group.versionProps appName (!(props.force.getD false)))) o log with
  | (Except.ok errs, log1) =>
    if errs.length > 0 then (Except.error (Err.dbError asyncFailedMessage errs), log1)
    else (Except.ok (), log1)
  | (Except.error e, log1) => (Except.error e, log1)

/-- Assembling the private health props as `deploy.ts` does via spread. -/
def mkHealthProps (props : IDeployToGroupProps) (hcp : IHealthCheckProps)
    (checkVersion : Bool) : HealthProps :=
  { attempts := hcp.attempts, timeBetweenAttemptsMs := hcp.timeBetweenAttemptsMs,
    unhealthyStatuses := hcp.unhealthyStatuses, checkVersion := checkVersion,
    force := props.force.getD false, group := props.group }

/-- The message-prefixing `catch` of `preDeployHealthcheck` /
`postDeployHealthcheck` (`instanceof DBHealthinessCheckError`). -/
def prefixIfHealthError (p : String) : Err → Err
  | Err.dbHealthinessCheckError msg errs => Err.dbHealthinessCheckError (p ++ msg) errs
  | e => e

/-- `preDeployHealthcheck`: pre-deploy gate, `checkVersion = false`. -/
def preDeployHealthcheck (props : IDeployToGroupProps) : M Unit := fun o log =>
  match waitForGroupHealthiness
      (mkHealthProps props (props.preDeployHealthCheckProps.getD DEFAULT_HEALTH_CHECK_PROPS) false) o log with
  | (Except.ok u, log1) => (Except.ok u, log1)
  | (Except.error e, log1) =>
    (Except.error (prefixIfHealthError "preDeployHealthcheck(): " e), log1)

/-- `postDeployHealthcheck`: post-deploy gate, `checkVersion = true`. -/
def postDeployHealthcheck (props : IDeployToGroupProps) : M Unit := fun o log =>
  match waitForGroupHealthiness
      (mkHealthProps props (props.postDeployHealthCheckProps.getD DEFAULT_HEALTH_CHECK_PROPS) true) o log with
  | (Except.ok u, log1) => (Except.ok u, log1)
  | (Except.error e, log1) =>
    (Except.error (prefixIfHealthError "postDeployHealthcheck(): " e), log1)

/-- `deployAppVersionsToGroup`: trigger every environment (Promise.all with
a per-task catch collecting into `triggerErr.errors`); throw the
`DBGroupDeployTriggerError` iff any trigger failed. -/
def deployAppVersionsToGroup (props : IDeployToGroupProps) : M Unit := fun o log =>
  match settleAll (props.group.environments.map
      (fun env => deploy env props.group.versionProps (props.force.getD false))) o log with
  | (Except.ok errs, log1) =>
    if errs.length ≠ 0 then
      (Except.error (Err.dbGroupDeployTriggerError "deployAppVersionsToGroup: " errs), log1)
    else (Except.ok (), log1)
  | (Except.error e, log1) => (Except.error e, log1)

/-- `preDeploySteps`: provisioning then the pre-deploy gate; the source
`catch` only logs and rethrows. -/
def preDeploySteps (props : IDeployToGroupProps) : M Unit := fun o log =>
  match createAppVersionsForGroup props o log with
  | (Except.ok _, log1) => preDeployHealthcheck props o log1
  | (Except.error e, log1) => (Except.error e, log1)

/-- `deploySteps`: the trigger fan-out and the post-deploy gate both run;
their failures are collected into one `DBError` thrown at the end. -/
def deploySteps (props : IDeployToGroupProps) : M Unit := fun o log =>
  let r1 := deployAppVersionsToGroup props o log
  let r2 := postDeployHealthcheck props o r1.snd
  let errs :=
    (match r1.fst with | Except.ok _ => [] | Except.error e => [e]) ++
    (match r2.fst with | Except.ok _ => [] | Except.error e => [e])
  if errs.length ≠ 0 then (Except.error (Err.dbError "deploySteps(): " errs), r2.snd)
  else (Except.ok (), r2.snd)

/-- `deployToGroup`: the caller-facing entrypoint. -/
def deployToGroup (props : IDeployToGroupProps) : M Unit := fun o log =>
  match preDeploySteps props o log with
  | (Except.ok _, log1) => deploySteps props o log1
  | (Except.error e, log1) => (Except.error e, log1)

/-! ## Canonical call shapes -/

/-- The describe-versions command issued for one application. -/
def versionCheckCmd (group : IBeanstalkGroup) (a : String) : Command :=
  Command.describeVersions a [group.versionProps.label]

/-- The list of describe-versions commands a run issues: one per distinct
application, in first-occurrence order. -/
def canonicalVersionChecks (group : IBeanstalkGroup) : List Command :=
  (dedupApps group.environments).map (versionCheckCmd group)

/-- The describe-environments command for one per-application batch. -/
def envBatchCmd (b : String × List IBeanstalkEnvironment) : Command :=
  Command.describeEnvironments b.fst (b.snd.map (fun e => e.name))

/-- The list of describe-environments commands of one full health-check
round: one per application batch, in first-occurrence order. -/
def canonicalEnvChecks (group : IBeanstalkGroup) : List Command :=
  (groupEnvsByApp group.environments).map envBatchCmd

/-- Variant of the health-check loop that is identical on every attempt
but whose fuel-0 case returns success instead of the fall-through throw.
Agreement of `waitForGroupHealthinessAux` with this variant for at least
one attempt expresses that the fall-through throw after the loop is
unreachable. -/
def waitLoopNoFallthrough (props : HealthProps) : Nat → M Unit
  | 0 => fun _ log => (Except.ok (), log)
  | Nat.succ n => fun o log =>
    match getGroupHealth props o log with
    | (Except.error err, log1) =>
      (Except.error (Err.dbHealthinessCheckError couldNotCheckMessage [err]), log1)
    | (Except.ok statuses, log1) =>
      let isLastAttempt : Bool := n == 0
      let allAreHealthy : Bool :=
        !props.force || (statuses.healthy.length == props.group.environments.length)
      if isLastAttempt && !allAreHealthy then
        (Except.error (Err.dbHealthinessCheckError (notHealthyMessage props.attempts)
          (statuses.unhealthy.map (fun s => Err.jsError s.msg))), log1)
      else if allAreHealthy then (Except.ok (), log1)
      else waitLoopNoFallthrough props n o log1

/-- First-occurrence deduplication, stated independently of the program:
keep the head, drop its later duplicates, recurse ("deduplicated,
order = first occurrence"). -/
def firstOccurrenceDedup : List String → List String
  | [] => []
  | a :: rest => a :: firstOccurrenceDedup (rest.filter (fun b => b ≠ a))
termination_by l => l.length
decreasing_by
  simp only [List.length_cons]
  exact Nat.lt_succ_of_le (List.length_filter_le _ _)

/-- The healthiness rule, stated independently of the classifier: ready,
health code outside the unhealthy set and — when a non-empty expected
version label is supplied — running exactly that label. -/
def isHealthyDesc (unhealthyStatuses : List String) (expectedVersionLabel : Option String)
    (d : EnvironmentDescription) : Bool :=
  (d.status == some "Ready") && !(unhealthyStatuses.contains (optStr d.healthStatus)) &&
    (!truthyStr expectedVersionLabel || (d.versionLabel == expectedVersionLabel))

mutual

/-- Number of `DBTriggerDeployError` leaves inside an error tree. -/
def countTriggerLeaves : Err → Nat
  | Err.jsError _ => 0
  | Err.dbError _ errs => countTriggerLeavesList errs
  | Err.dbCreateApplicationVersionError _ _ cause => countTriggerLeaves cause
  | Err.dbTriggerDeployError _ _ _ => 1
  | Err.dbGroupDeployTriggerError _ errs => countTriggerLeavesList errs
  | Err.dbHealthinessCheckError _ errs => countTriggerLeavesList errs

def countTriggerLeavesList : List Err → Nat
  | [] => 0
  | e :: es => countTriggerLeaves e + countTriggerLeavesList es

end

/-! ## Concrete scenarios used by witnesses and counterexamples -/

/-- A description that is ready, healthy and running the given label. -/
def okDesc (n lbl : String) : EnvironmentDescription :=
  { environmentName := some n, status := some "Ready", healthStatus := some "Ok",
    versionLabel := some lbl }

/-- A description that is ready but in Severe health. -/
def severeDesc (n lbl : String) : EnvironmentDescription :=
  { environmentName := some n, status := some "Ready", healthStatus := some "Severe",
    versionLabel := some lbl }

def sampleVersion : IAppVersionProps :=
  { artifact := ⟨"test-bucket", "test-key"⟩, label := "v1", description := "test",
    errorIfExists := false }

/-- Two environments in two different applications. -/
def twoAppGroup : IBeanstalkGroup :=
  { versionProps := sampleVersion,
    environments := [⟨"appA", "envA"⟩, ⟨"appB", "envB"⟩],
    name := "grp", region := "us-west-2" }

/-- Two environments sharing one application. -/
def oneAppGroup : IBeanstalkGroup :=
  { versionProps := sampleVersion,
    environments := [⟨"appA", "envA"⟩, ⟨"appA", "envB"⟩],
    name := "grp", region := "us-west-2" }

/-- A client for which everything succeeds and every environment is
always ready, healthy and on label v1. -/
def happyOracle : Oracle :=
  { onDescribeVersions := fun _ _ _ => some [],
    onCreateVersion := fun _ _ _ => some 200,
    onDescribeEnvironments := fun _ _ names => some (names.map (fun n => okDesc n "v1")),
    onUpdateEnvironment := fun _ _ _ _ => some 200 }

/-- Like `happyOracle` but the describe-versions call always finds an
existing version under the label. -/
def existsOracle : Oracle :=
  { happyOracle with onDescribeVersions := fun _ _ _ => some ["v1"] }

/-- Dry-run props over the two-application group with one attempt per
health gate. -/
def c1Props : IDeployToGroupProps :=
  { group := twoAppGroup, force := none,
    preDeployHealthCheckProps := some ⟨1, 0, none⟩,
    postDeployHealthCheckProps := some ⟨1, 0, none⟩ }

/-- Forced run over the two-application group whose version label already
exists remotely and must not. -/
def existsProps : IDeployToGroupProps :=
  { group := { twoAppGroup with versionProps := { sampleVersion with errorIfExists := true } },
    force := some true,
    preDeployHealthCheckProps := some ⟨1, 0, none⟩,
    postDeployHealthCheckProps := some ⟨1, 0, none⟩ }

/-- Health-check props for a forced pre-deploy gate over the
two-application group. -/
def c4wProps : HealthProps :=
  { attempts := 5, timeBetweenAttemptsMs := 0, unhealthyStatuses := none,
    checkVersion := false, force := true, group := twoAppGroup }

/-- A client whose describe-environments response is an empty list. -/
def emptyRespOracle : Oracle :=
  { happyOracle with onDescribeEnvironments := fun _ _ _ => some [] }

/-- A client whose describe-environments response has no `Environments`
field at all. -/
def noEnvsFieldOracle : Oracle :=
  { happyOracle with onDescribeEnvironments := fun _ _ _ => none }

/-- A client that answers appA's batch with its healthy description but
returns an empty list for appB's batch. -/
def secondBatchMissingOracle : Oracle :=
  { happyOracle with onDescribeEnvironments := (fun _ a names =>
      if a = "appB" then some [] else some (names.map (fun n => okDesc n "v1"))) }

/-- One forced attempt over the one-application group. -/
def c4ceProps : HealthProps :=
  { attempts := 1, timeBetweenAttemptsMs := 0, unhealthyStatuses := none,
    checkVersion := false, force := true, group := oneAppGroup }

/-- A client that answers every describe-environments request with two
copies of envB's description: envA is omitted but the list length still
matches the request. -/
def dupRespOracle : Oracle :=
  { happyOracle with onDescribeEnvironments := (fun _ _ _ =>
      some [okDesc "envB" "v1", okDesc "envB" "v1"]) }

/-- Post-deploy-style health check: three attempts, no delay, version
checked, over the one-application group. -/
def c5Props : HealthProps :=
  { attempts := 3, timeBetweenAttemptsMs := 0, unhealthyStatuses := none,
    checkVersion := true, force := true, group := oneAppGroup }

/-- A client whose environments report Severe on the first
describe-environments call and healthy (on the expected version)
afterwards. -/
def flakyOracle : Oracle :=
  { happyOracle with onDescribeEnvironments := (fun h _ names =>
      if h.countP (fun c => c.isDescribeEnvironments) = 0 then
        some (names.map (fun n => severeDesc n "v1"))
      else some (names.map (fun n => okDesc n "v1"))) }

/-- A group whose configured version label is the empty string. -/
def emptyLabelGroup : IBeanstalkGroup :=
  { versionProps := { sampleVersion with label := "" },
    environments := [⟨"appA", "envA"⟩],
    name := "grp", region := "us-west-2" }

/-- One forced attempt with version checking over the empty-label group. -/
def c6Props : HealthProps :=
  { attempts := 1, timeBetweenAttemptsMs := 0, unhealthyStatuses := none,
    checkVersion := true, force := true, group := emptyLabelGroup }

/-- Forced run over the two-application group with one attempt per gate. -/
def c7Props : IDeployToGroupProps :=
  { group := twoAppGroup, force := some true,
    preDeployHealthCheckProps := some ⟨1, 0, none⟩,
    postDeployHealthCheckProps := some ⟨1, 0, none⟩ }

/-- A client that rejects envA's trigger with a 500 and accepts envB's. -/
def failOneTriggerOracle : Oracle :=
  { happyOracle with onUpdateEnvironment := (fun _ _ envName _ =>
      if envName = "envA" then some 500 else some 200) }

/-- Two forced attempts over the one-application group. -/
def c10Props : HealthProps :=
  { attempts := 2, timeBetweenAttemptsMs := 0, unhealthyStatuses := none,
    checkVersion := false, force := true, group := oneAppGroup }

/-- A client for which envA is healthy and envB Severe on the first
describe-environments call, and both healthy afterwards. -/
def partialUnhealthyOracle : Oracle :=
  { happyOracle with onDescribeEnvironments := (fun h _ _ =>
      if h.countP (fun c => c.isDescribeEnvironments) = 0 then
        some [okDesc "envA" "v1", severeDesc "envB" "v1"]
      else some [okDesc "envA" "v1", okDesc "envB" "v1"]) }

/-- The error thrown by `deployToGroup` in the one-failed-trigger
scenario. -/
def c7err : Err :=
  Err.dbError "deploySteps(): "
    [Err.dbGroupDeployTriggerError "deployAppVersionsToGroup: "
      [Err.dbTriggerDeployError "envA" "v1" (Err.jsError triggerFailedMessage)]]

/-- The statement of claim C1, packaged: a dry run sends no write
command at all; dry run and the corresponding `force = true` run send
the identical canonical describe-versions list; every
describe-environments command of either run carries the canonical
per-application-batch arguments; and a successful dry run sends exactly
the canonical describes (one round for each gate) and nothing else. -/
def DryRunCallShape (props : IDeployToGroupProps) (o o2 : Oracle) : Prop :=
  (∀ c ∈ (deployToGroup props o []).snd, c.isWrite = false) ∧
  ((deployToGroup props o []).snd.filter Command.isDescribeVersions =
    canonicalVersionChecks props.group) ∧
  ((deployToGroup { props with force := some true } o2 []).snd.filter Command.isDescribeVersions =
    canonicalVersionChecks props.group) ∧
  (∀ c ∈ (deployToGroup props o []).snd, c.isDescribeEnvironments = true →
    c ∈ canonicalEnvChecks props.group) ∧
  (∀ c ∈ (deployToGroup { props with force := some true } o2 []).snd,
    c.isDescribeEnvironments = true → c ∈ canonicalEnvChecks props.group) ∧
  ((deployToGroup props o []).fst = Except.ok () →
    (deployToGroup props o []).snd =
      canonicalVersionChecks props.group ++ canonicalEnvChecks props.group ++
        canonicalEnvChecks props.group)

/-! ## Basic lemmas: version provisioning -/

theorem cave_eq (v : IAppVersionProps) (a : String) (o : Oracle) (log : List Command) :
    checkApplicationVersionExists v a o log =
      (Except.ok (match o.onDescribeVersions log a [v.label] with
        | some vs => decide (vs.length > 0)
        | none => false), log ++ [Command.describeVersions a [v.label]]) := by
  simp only [checkApplicationVersionExists]
  cases o.onDescribeVersions log a [v.label] <;> rfl

/-- Trace of one `create` task: always exactly one describe-versions
command for this application (first), followed by at most one
create-version command — and none at all in dry-run mode. -/
theorem create_snd (v : IAppVersionProps) (a : String) (d : Bool) (o : Oracle)
    (log : List Command) :
    ∃ extra,
      (create v a d o log).snd = log ++ Command.describeVersions a [v.label] :: extra ∧
      (extra = [] ∨ extra = [Command.createVersion a v.label v.description v.artifact]) ∧
      (d = true → extra = []) := by
  simp only [create, cave_eq, createApplicationVersion]
  cases hdv : o.onDescribeVersions log a [v.label] with
  | none =>
    cases d with
    | true => exact ⟨[], by simp, Or.inl rfl, fun _ => rfl⟩
    | false =>
      refine ⟨[Command.createVersion a v.label v.description v.artifact], ?_, Or.inr rfl, by simp⟩
      rw [if_neg (by simp)]
      cases hok : isOkStatus (o.onCreateVersion (log ++ [Command.describeVersions a [v.label]]) a v.label) <;>
        simp [hok]
  | some vs =>
    by_cases hlen : vs.length > 0
    · by_cases herr : v.errorIfExists
      · exact ⟨[], by simp [hlen, herr], Or.inl rfl, fun _ => rfl⟩
      · exact ⟨[], by simp [hlen, herr], Or.inl rfl, fun _ => rfl⟩
    · cases d with
      | true => exact ⟨[], by simp [hlen], Or.inl rfl, fun _ => rfl⟩
      | false =>
        refine ⟨[Command.createVersion a v.label v.description v.artifact], ?_, Or.inr rfl, by simp⟩
        rw [if_neg (by simp [hlen])]
        cases hok : isOkStatus (o.onCreateVersion (log ++ [Command.describeVersions a [v.label]]) a v.label) <;>
          simp [hok]

/-- When the existence check finds a version and `errorIfExists` is set,
`create` throws the wrapped `DBCreateApplicationVersionError` right after
the describe-versions call — in dry runs and real runs alike. -/
theorem create_exists_error (v : IAppVersionProps) (a : String) (d : Bool) (o : Oracle)
    (log : List Command) (hE : v.errorIfExists = true) (vs : List String)
    (hdv : o.onDescribeVersions log a [v.label] = some vs) (hne : vs ≠ []) :
    create v a d o log =
      (Except.error (Err.dbCreateApplicationVersionError a v.label
        (Err.jsError (alreadyExistsMessage v.label))),
       log ++ [Command.describeVersions a [v.label]]) := by
  simp only [create, cave_eq, hdv]
  have hlen : vs.length > 0 := List.length_pos.mpr hne
  simp [hlen, hE]

/-! ## Basic lemmas: settling concurrent tasks -/

theorem settleAll_cons_snd (t : M Unit) (ts : List (M Unit)) (o : Oracle) (log : List Command) :
    (settleAll (t :: ts) o log).snd = (settleAll ts o (t o log).snd).snd := by
  simp only [settleAll]
  cases (settleAll ts o (t o log).snd).fst <;> rfl

theorem settleAll_fst_ok (ts : List (M Unit)) (o : Oracle) (log : List Command) :
    ∃ es, (settleAll ts o log).fst = Except.ok es := by
  induction ts generalizing log with
  | nil => exact ⟨[], rfl⟩
  | cons t rest ih =>
    obtain ⟨es, hes⟩ := ih (t o log).snd
    simp only [settleAll, hes]
    cases h1 : (t o log).fst with
    | ok u => exact ⟨es, rfl⟩
    | error e => exact ⟨e :: es, rfl⟩

/-- A task that rejects (with the same reason whatever the call history)
contributes its reason to the settled rejection list. -/
theorem settleAll_mem_error (ts : List (M Unit)) (o : Oracle) (E : Err) (t0 : M Unit)
    (hmem : t0 ∈ ts) (herr : ∀ l : List Command, (t0 o l).fst = Except.error E) :
    ∀ log es, (settleAll ts o log).fst = Except.ok es → E ∈ es := by
  induction ts with
  | nil => simp at hmem
  | cons t rest ih =>
    intro log es hok
    obtain ⟨es2, hes2⟩ := settleAll_fst_ok rest o (t o log).snd
    rcases List.mem_cons.mp hmem with h1 | h1
    · subst h1
      simp only [settleAll, hes2, herr log] at hok
      cases hok
      exact List.mem_cons_self _ _
    · have hmem2 : E ∈ es2 := ih h1 (t o log).snd es2 hes2
      simp only [settleAll, hes2] at hok
      cases h3 : (t o log).fst with
      | ok u => simp only [h3] at hok; cases hok; exact hmem2
      | error e => simp only [h3] at hok; cases hok; exact List.mem_cons_of_mem _ hmem2

/-- Trace of the settled provisioning fan-out: exactly one
describe-versions command per listed application, in list order, plus at
most one create-version command per application — and no create-version
command at all in dry-run mode. -/
theorem settleAll_creates_snd (v : IAppVersionProps) (d : Bool) (apps : List String)
    (o : Oracle) (log : List Command) :
    ∃ t, (settleAll (apps.map fun a => create v a d) o log).snd = log ++ t ∧
      t.filter Command.isDescribeVersions =
        apps.map (fun a => Command.describeVersions a [v.label]) ∧
      (t.filter Command.isCreateVersion).length ≤ apps.length ∧
      (∀ c ∈ t, (c.isDescribeVersions || c.isCreateVersion) = true) ∧
      (d = true → t = apps.map (fun a => Command.describeVersions a [v.label])) := by
  induction apps generalizing log with
  | nil => exact ⟨[], by simp [settleAll], rfl, by simp, by simp, fun _ => rfl⟩
  | cons a rest ih =>
    obtain ⟨extra, hx, hxcases, hxdry⟩ := create_snd v a d o log
    obtain ⟨t2, ht2, ht2dv, ht2cv, ht2all, ht2dry⟩ := ih (create v a d o log).snd
    refine ⟨(Command.describeVersions a [v.label] :: extra) ++ t2, ?_, ?_, ?_, ?_, ?_⟩
    · rw [List.map_cons, settleAll_cons_snd, ht2, hx]; simp
    · rcases hxcases with h | h <;> subst h <;>
        simp [List.filter_append, ht2dv, Command.isDescribeVersions, Command.isCreateVersion]
    · rcases hxcases with h | h <;> subst h <;>
        simp only [List.filter_append, List.length_append, List.map_cons] <;>
        simp [Command.isDescribeVersions, Command.isCreateVersion, List.length_append] <;>
        omega
    · intro c hc
      rcases List.mem_append.mp hc with hc1 | hc1
      · rcases List.mem_cons.mp hc1 with h | h
        · subst h; rfl
        · rcases hxcases with hx2 | hx2 <;> subst hx2 <;> simp at h
          subst h; rfl
      · exact ht2all c hc1
    · intro hd
      rw [hxdry hd, ht2dry hd]; simp

/-! ## Basic lemmas: createAppVersionsForGroup -/

theorem cavfg_snd_eq (props : IDeployToGroupProps) (o : Oracle) (log : List Command) :
    (createAppVersionsForGroup props o log).snd =
      (settleAll ((dedupApps props.group.environments).map
        (fun appName => create props.group.versionProps appName (!(props.force.getD false)))) o log).snd := by
  obtain ⟨es, hes⟩ := settleAll_fst_ok ((dedupApps props.group.environments).map
    (fun appName => create props.group.versionProps appName (!(props.force.getD false)))) o log
  rcases hsa : settleAll ((dedupApps props.group.environments).map
    (fun appName => create props.group.versionProps appName (!(props.force.getD false)))) o log
    with ⟨r, l1⟩
  rw [hsa] at hes
  simp only at hes
  subst hes
  simp only [createAppVersionsForGroup, hsa]
  split <;> rfl

/-- Trace of the whole provisioning stage: one describe-versions command
per distinct application of the group (first-occurrence order), at most
that many create-version commands, nothing else; in dry-run the trace is
exactly the canonical describe-versions list. -/
theorem cavfg_snd (props : IDeployToGroupProps) (o : Oracle) (log : List Command) :
    ∃ t, (createAppVersionsForGroup props o log).snd = log ++ t ∧
      t.filter Command.isDescribeVersions = canonicalVersionChecks props.group ∧
      (t.filter Command.isCreateVersion).length ≤ (dedupApps props.group.environments).length ∧
      (∀ c ∈ t, (c.isDescribeVersions || c.isCreateVersion) = true) ∧
      (props.force.getD false = false → t = canonicalVersionChecks props.group) := by
  obtain ⟨t, ht, hdv, hcv, hall, hdry⟩ := settleAll_creates_snd props.group.versionProps
    (!(props.force.getD false)) (dedupApps props.group.environments) o log
  refine ⟨t, by rw [cavfg_snd_eq, ht], ?_, ?_, hall, ?_⟩
  · rw [hdv]; rfl
  · exact (by simpa using hcv)
  · intro hf
    rw [hdry (by simp [hf])]; rfl

/-! ## Basic lemmas: health prober -/

theorem waitAux_zero_eq (props : HealthProps) (o : Oracle) (log : List Command) :
    waitForGroupHealthinessAux props 0 o log = (Except.error unexpectedLoopEndError, log) := rfl

theorem waitAux_succ_eq (props : HealthProps) (o : Oracle) (n : Nat) (log : List Command) :
    waitForGroupHealthinessAux props (n + 1) o log =
      match getGroupHealth props o log with
      | (Except.error err, log1) =>
        (Except.error (Err.dbHealthinessCheckError couldNotCheckMessage [err]), log1)
      | (Except.ok statuses, log1) =>
        if ((n == 0) && !(!props.force ||
            (statuses.healthy.length == props.group.environments.length))) = true then
          (Except.error (Err.dbHealthinessCheckError (notHealthyMessage props.attempts)
            (statuses.unhealthy.map (fun s => Err.jsError s.msg))), log1)
        else if (!props.force ||
            (statuses.healthy.length == props.group.environments.length)) = true then
          (Except.ok (), log1)
        else waitForGroupHealthinessAux props n o log1 := rfl

theorem waitLoop_zero_eq (props : HealthProps) (o : Oracle) (log : List Command) :
    waitLoopNoFallthrough props 0 o log = (Except.ok (), log) := rfl

theorem waitLoop_succ_eq (props : HealthProps) (o : Oracle) (n : Nat) (log : List Command) :
    waitLoopNoFallthrough props (n + 1) o log =
      match getGroupHealth props o log with
      | (Except.error err, log1) =>
        (Except.error (Err.dbHealthinessCheckError couldNotCheckMessage [err]), log1)
      | (Except.ok statuses, log1) =>
        if ((n == 0) && !(!props.force ||
            (statuses.healthy.length == props.group.environments.length))) = true then
          (Except.error (Err.dbHealthinessCheckError (notHealthyMessage props.attempts)
            (statuses.unhealthy.map (fun s => Err.jsError s.msg))), log1)
        else if (!props.force ||
            (statuses.healthy.length == props.group.environments.length)) = true then
          (Except.ok (), log1)
        else waitLoopNoFallthrough props n o log1 := rfl

/-- Trace of the per-application describe loop: only describe-environments
commands with the canonical batch arguments, at most one per batch. -/
theorem gghAux_snd (props : HealthProps) (batches : List (String × List IBeanstalkEnvironment))
    (acc : IBeanstalkHealthStatuses) (o : Oracle) (log : List Command) :
    ∃ t, (getGroupHealthAux props batches acc o log).snd = log ++ t ∧
      (∀ c ∈ t, c ∈ batches.map envBatchCmd) ∧ t.length ≤ batches.length := by
  induction batches generalizing acc log with
  | nil => exact ⟨[], by simp [getGroupHealthAux], by simp, by simp⟩
  | cons b rest ih =>
    obtain ⟨key, envs2⟩ := b
    simp only [getGroupHealthAux]
    cases hresp : o.onDescribeEnvironments log key (envs2.map fun e => e.name) with
    | none =>
      refine ⟨[envBatchCmd (key, envs2)], by simp [envBatchCmd], ?_, by simp⟩
      intro c hc
      simp only [List.mem_singleton] at hc
      subst hc
      exact List.mem_map_of_mem _ (List.mem_cons_self _ _)
    | some envDescs =>
      simp only []
      by_cases hlen : envDescs.length ≠ envs2.length
      · rw [if_pos hlen]
        refine ⟨[envBatchCmd (key, envs2)], by simp [envBatchCmd], ?_, by simp⟩
        intro c hc
        simp only [List.mem_singleton] at hc
        subst hc
        exact List.mem_map_of_mem _ (List.mem_cons_self _ _)
      · rw [if_neg hlen]
        by_cases hforce : props.force
        · rw [if_neg (by simp [hforce])]
          cases hcl : getEnvironmentsHealth envDescs
              (props.unhealthyStatuses.getD AWS_EB_HEALTH_CHECK_UNHEALTHY_STATES)
              (if props.checkVersion then some props.group.versionProps.label else none) with
          | error e =>
            refine ⟨[envBatchCmd (key, envs2)], by simp [envBatchCmd], ?_, by simp⟩
            intro c hc
            simp only [List.mem_singleton] at hc
            subst hc
            exact List.mem_map_of_mem _ (List.mem_cons_self _ _)
          | ok part =>
            simp only []
            obtain ⟨t2, ht2, hmem2, hlen2⟩ :=
              ih ⟨acc.healthy ++ part.healthy, acc.unhealthy ++ part.unhealthy⟩
                (log ++ [Command.describeEnvironments key (envs2.map fun e => e.name)])
            refine ⟨envBatchCmd (key, envs2) :: t2, ?_, ?_, ?_⟩
            · rw [ht2]; simp [envBatchCmd]
            · intro c hc
              rcases List.mem_cons.mp hc with h | h
              · subst h; exact List.mem_map_of_mem _ (List.mem_cons_self _ _)
              · exact List.mem_cons_of_mem _ (hmem2 c h)
            · simp only [List.length_cons, List.length_map]
              omega
        · rw [if_pos (by simp [hforce])]
          obtain ⟨t2, ht2, hmem2, hlen2⟩ :=
            ih acc (log ++ [Command.describeEnvironments key (envs2.map fun e => e.name)])
          refine ⟨envBatchCmd (key, envs2) :: t2, ?_, ?_, ?_⟩
          · rw [ht2]; simp [envBatchCmd]
          · intro c hc
            rcases List.mem_cons.mp hc with h | h
            · subst h; exact List.mem_map_of_mem _ (List.mem_cons_self _ _)
            · exact List.mem_cons_of_mem _ (hmem2 c h)
          · simp only [List.length_cons, List.length_map]
            omega

/-- In dry-run mode a successful describe loop reports the untouched
accumulator and has described every batch exactly once. -/
theorem gghAux_dry (props : HealthProps) (hf : props.force = false)
    (batches : List (String × List IBeanstalkEnvironment)) (acc : IBeanstalkHealthStatuses)
    (o : Oracle) (log : List Command) :
    ∀ res, (getGroupHealthAux props batches acc o log).fst = Except.ok res →
      res = acc ∧
      (getGroupHealthAux props batches acc o log).snd = log ++ batches.map envBatchCmd := by
  induction batches generalizing acc log with
  | nil => intro res h; simp only [getGroupHealthAux] at h ⊢; cases h; exact ⟨rfl, by simp⟩
  | cons b rest ih =>
    obtain ⟨key, envs2⟩ := b
    intro res h
    simp only [getGroupHealthAux] at h ⊢
    cases hresp : o.onDescribeEnvironments log key (envs2.map fun e => e.name) with
    | none => rw [hresp] at h; simp at h
    | some envDescs =>
      rw [hresp] at h
      simp only [] at h ⊢
      by_cases hlen : envDescs.length ≠ envs2.length
      · rw [if_pos hlen] at h; simp at h
      · rw [if_neg hlen] at h ⊢
        rw [if_pos (by simp [hf])] at h ⊢
        obtain ⟨h1, h2⟩ := ih acc (log ++ [Command.describeEnvironments key (envs2.map fun e => e.name)]) res h
        refine ⟨h1, ?_⟩
        rw [h2]
        simp [envBatchCmd]

theorem getGroupHealth_snd (props : HealthProps) (o : Oracle) (log : List Command) :
    ∃ t, (getGroupHealth props o log).snd = log ++ t ∧
      (∀ c ∈ t, c ∈ (groupEnvsByApp props.group.environments).map envBatchCmd) ∧
      t.length ≤ (groupEnvsByApp props.group.environments).length := by
  simpa using gghAux_snd props (groupEnvsByApp props.group.environments) ⟨[], []⟩ o log

theorem getGroupHealth_dry (props : HealthProps) (hf : props.force = false)
    (o : Oracle) (log : List Command) :
    ∀ res, (getGroupHealth props o log).fst = Except.ok res →
      (getGroupHealth props o log).snd =
        log ++ (groupEnvsByApp props.group.environments).map envBatchCmd := by
  intro res h
  exact (gghAux_dry props hf (groupEnvsByApp props.group.environments) ⟨[], []⟩ o log res h).2

/-- Any failure of the per-attempt status fetch or classification is
immediately rethrown as a `DBHealthinessCheckError` wrapping exactly that
one error, however many attempts remain. -/
theorem waitAux_wrap (props : HealthProps) (o : Oracle) (n : Nat) (log log1 : List Command)
    (err : Err) (h : getGroupHealth props o log = (Except.error err, log1)) :
    waitForGroupHealthinessAux props (n + 1) o log =
      (Except.error (Err.dbHealthinessCheckError couldNotCheckMessage [err]), log1) := by
  simp only [waitForGroupHealthinessAux, h]

/-- Every trace of the attempt loop consists of canonical
describe-environments batch commands, at most one round per attempt. -/
theorem waitAux_snd (props : HealthProps) (o : Oracle) :
    ∀ n log, ∃ t, (waitForGroupHealthinessAux props n o log).snd = log ++ t ∧
      (∀ c ∈ t, c ∈ (groupEnvsByApp props.group.environments).map envBatchCmd) ∧
      t.length ≤ n * (groupEnvsByApp props.group.environments).length := by
  intro n
  induction n with
  | zero => intro log; exact ⟨[], by simp [waitForGroupHealthinessAux], by simp, by simp⟩
  | succ n ih =>
    intro log
    obtain ⟨t1, ht1, hmem1, hlen1⟩ := getGroupHealth_snd props o log
    have hstep : t1.length ≤ (n + 1) * (groupEnvsByApp props.group.environments).length := by
      have hmul : (n + 1) * (groupEnvsByApp props.group.environments).length =
          n * (groupEnvsByApp props.group.environments).length +
            (groupEnvsByApp props.group.environments).length := Nat.succ_mul _ _
      omega
    rw [waitAux_succ_eq]
    rcases hg : getGroupHealth props o log with ⟨r, log1⟩
    have hl1 : log1 = log ++ t1 := by rw [hg] at ht1; exact ht1
    cases r with
    | error err => exact ⟨t1, by simp [hl1], hmem1, hstep⟩
    | ok statuses =>
      simp only []
      obtain ⟨t2, ht2, hmem2, hlen2⟩ := ih log1
      by_cases hcond : ((n == 0) && !(!props.force ||
          (statuses.healthy.length == props.group.environments.length))) = true
      · rw [if_pos hcond]
        exact ⟨t1, by simp [hl1], hmem1, hstep⟩
      · rw [if_neg hcond]
        by_cases hall : (!props.force ||
            (statuses.healthy.length == props.group.environments.length)) = true
        · rw [if_pos hall]
          exact ⟨t1, by simp [hl1], hmem1, hstep⟩
        · rw [if_neg hall]
          refine ⟨t1 ++ t2, ?_, ?_, ?_⟩
          · rw [ht2, hl1]; simp
          · intro c hc
            rcases List.mem_append.mp hc with h | h
            · exact hmem1 c h
            · exact hmem2 c h
          · simp only [List.length_append]
            have hmul : (n + 1) * (groupEnvsByApp props.group.environments).length =
                n * (groupEnvsByApp props.group.environments).length +
                  (groupEnvsByApp props.group.environments).length := Nat.succ_mul _ _
            omega

/-- Every abnormal exit of the attempt loop is a
`DBHealthinessCheckError`. -/
theorem waitAux_fst_shape (props : HealthProps) (o : Oracle) :
    ∀ n log, (waitForGroupHealthinessAux props n o log).fst = Except.ok () ∨
      ∃ msg errs, (waitForGroupHealthinessAux props n o log).fst =
        Except.error (Err.dbHealthinessCheckError msg errs) := by
  intro n
  induction n with
  | zero =>
    intro log
    exact Or.inr ⟨"Unexpected error checking group health.",
      [Err.jsError "Reached end of for loop...should never."], rfl⟩
  | succ n ih =>
    intro log
    simp only [waitForGroupHealthinessAux]
    rcases hg : getGroupHealth props o log with ⟨r, log1⟩
    cases r with
    | error err => exact Or.inr ⟨couldNotCheckMessage, [err], rfl⟩
    | ok statuses =>
      simp only []
      by_cases hcond : ((n == 0) && !(!props.force ||
          (statuses.healthy.length == props.group.environments.length))) = true
      · rw [if_pos hcond]
        exact Or.inr ⟨notHealthyMessage props.attempts,
          statuses.unhealthy.map (fun s => Err.jsError s.msg), rfl⟩
      · rw [if_neg hcond]
        by_cases hall : (!props.force ||
            (statuses.healthy.length == props.group.environments.length)) = true
        · rw [if_pos hall]; exact Or.inl rfl
        · rw [if_neg hall]; exact ih log1

/-- For at least one attempt, the loop agrees with the variant whose
fall-through branch is replaced: the fall-through throw after the loop is
unreachable. -/
theorem waitAux_eq_noFallthrough (props : HealthProps) (o : Oracle) :
    ∀ n log, waitForGroupHealthinessAux props (n + 1) o log =
      waitLoopNoFallthrough props (n + 1) o log := by
  intro n
  induction n with
  | zero =>
    intro log
    rw [waitAux_succ_eq, waitLoop_succ_eq]
    rcases hg : getGroupHealth props o log with ⟨r, log1⟩
    cases r with
    | error err => rfl
    | ok statuses =>
      simp only []
      by_cases hall : (!props.force ||
          (statuses.healthy.length == props.group.environments.length)) = true
      · simp [hall]
      · simp only [Bool.not_eq_true] at hall
        simp [hall]
  | succ n ih =>
    intro log
    rw [waitAux_succ_eq, waitLoop_succ_eq]
    rcases hg : getGroupHealth props o log with ⟨r, log1⟩
    cases r with
    | error err => rfl
    | ok statuses =>
      simp only []
      have hcond : (((n + 1 : Nat) == 0) && !(!props.force ||
          (statuses.healthy.length == props.group.environments.length))) = false := by
        simp
      rw [if_neg (show ¬(((n + 1 : Nat) == 0) && !(!props.force ||
            (statuses.healthy.length == props.group.environments.length))) = true by
          rw [hcond]; exact Bool.false_ne_true),
        if_neg (show ¬(((n + 1 : Nat) == 0) && !(!props.force ||
            (statuses.healthy.length == props.group.environments.length))) = true by
          rw [hcond]; exact Bool.false_ne_true)]
      by_cases hall : (!props.force ||
          (statuses.healthy.length == props.group.environments.length)) = true
      · rw [if_pos hall, if_pos hall]
      · rw [if_neg hall, if_neg hall]
        exact ih log1

/-- In dry-run mode a successful health gate has described every batch
exactly once. -/
theorem waitAux_dry_snd (props : HealthProps) (hf : props.force = false) (o : Oracle)
    (n : Nat) (log : List Command)
    (h : (waitForGroupHealthinessAux props (n + 1) o log).fst = Except.ok ()) :
    (waitForGroupHealthinessAux props (n + 1) o log).snd =
      log ++ (groupEnvsByApp props.group.environments).map envBatchCmd := by
  simp only [waitForGroupHealthinessAux] at h ⊢
  rcases hg : getGroupHealth props o log with ⟨r, log1⟩
  rw [hg] at h
  cases r with
  | error err => simp at h
  | ok statuses =>
    simp only []
    have hall : (!props.force ||
        (statuses.healthy.length == props.group.environments.length)) = true := by
      simp [hf]
    have hl1 : log1 = log ++ (groupEnvsByApp props.group.environments).map envBatchCmd := by
      have h2 := getGroupHealth_dry props hf o log statuses (by rw [hg])
      rw [hg] at h2
      exact h2
    rw [if_neg (by simp [hall]), if_pos hall]
    exact hl1

theorem wait_dry_snd (props : HealthProps) (hf : props.force = false) (o : Oracle)
    (log : List Command)
    (h : (waitForGroupHealthiness props o log).fst = Except.ok ()) :
    (waitForGroupHealthiness props o log).snd =
      log ++ (groupEnvsByApp props.group.environments).map envBatchCmd := by
  simp only [waitForGroupHealthiness] at h ⊢
  cases hA : props.attempts with
  | zero => rw [hA] at h; simp [waitForGroupHealthinessAux, unexpectedLoopEndError] at h
  | succ n =>
    rw [hA] at h
    exact waitAux_dry_snd props hf o n log h

/-! ## Basic lemmas: deployment trigger and orchestration -/

theorem deploy_dry (env : IBeanstalkEnvironment) (v : IAppVersionProps) (o : Oracle)
    (log : List Command) : deploy env v false o log = (Except.ok (), log) := rfl

theorem deploy_snd (env : IBeanstalkEnvironment) (v : IAppVersionProps) (f : Bool)
    (o : Oracle) (log : List Command) :
    ∃ t, (deploy env v f o log).snd = log ++ t ∧
      (∀ c ∈ t, c.isUpdateEnvironment = true) ∧
      (f = false → t = []) := by
  cases f with
  | false => exact ⟨[], by simp [deploy_dry], by simp, fun _ => rfl⟩
  | true =>
    refine ⟨[Command.updateEnvironment env.app env.name v.label], ?_, ?_, by simp⟩
    · simp only [deploy, deployApplicationVersion]
      cases hok : isOkStatus (o.onUpdateEnvironment log env.app env.name v.label) <;>
        simp [hok]
    · intro c hc
      simp only [List.mem_singleton] at hc
      subst hc
      rfl

/-- Tasks that never touch the client settle to an empty rejection list
without sending anything. -/
theorem settleAll_id (ts : List (M Unit)) (o : Oracle)
    (h : ∀ t0 ∈ ts, ∀ l : List Command, t0 o l = (Except.ok (), l)) (log : List Command) :
    settleAll ts o log = (Except.ok [], log) := by
  induction ts generalizing log with
  | nil => rfl
  | cons t rest ih =>
    have h1 : t o log = (Except.ok (), log) := h t (List.mem_cons_self _ _) log
    have h2 : settleAll rest o log = (Except.ok [], log) :=
      ih (fun t0 ht0 => h t0 (List.mem_cons_of_mem _ ht0)) log
    simp only [settleAll, h1, h2]

/-- Generic trace lemma for settled fan-outs. -/
theorem settleAll_snd_all (P : Command → Prop) (ts : List (M Unit)) (o : Oracle)
    (h : ∀ t0 ∈ ts, ∀ l : List Command, ∃ tr, (t0 o l).snd = l ++ tr ∧ ∀ c ∈ tr, P c) :
    ∀ log, ∃ tr, (settleAll ts o log).snd = log ++ tr ∧ ∀ c ∈ tr, P c := by
  induction ts with
  | nil => intro log; exact ⟨[], by simp [settleAll], by simp⟩
  | cons t rest ih =>
    intro log
    obtain ⟨tr1, htr1, hp1⟩ := h t (List.mem_cons_self _ _) log
    obtain ⟨tr2, htr2, hp2⟩ := ih (fun t0 ht0 => h t0 (List.mem_cons_of_mem _ ht0)) (t o log).snd
    refine ⟨tr1 ++ tr2, ?_, ?_⟩
    · rw [settleAll_cons_snd, htr2, htr1]; simp
    · intro c hc
      rcases List.mem_append.mp hc with h1 | h1
      · exact hp1 c h1
      · exact hp2 c h1

theorem datg_snd_eq (props : IDeployToGroupProps) (o : Oracle) (log : List Command) :
    (deployAppVersionsToGroup props o log).snd =
      (settleAll (props.group.environments.map
        (fun env => deploy env props.group.versionProps (props.force.getD false))) o log).snd := by
  obtain ⟨es, hes⟩ := settleAll_fst_ok (props.group.environments.map
    (fun env => deploy env props.group.versionProps (props.force.getD false))) o log
  rcases hsa : settleAll (props.group.environments.map
    (fun env => deploy env props.group.versionProps (props.force.getD false))) o log with ⟨r, l1⟩
  rw [hsa] at hes
  simp only at hes
  subst hes
  simp only [deployAppVersionsToGroup, hsa]
  split <;> rfl

/-- The trigger fan-out sends only update-environment commands. -/
theorem datg_snd (props : IDeployToGroupProps) (o : Oracle) (log : List Command) :
    ∃ t, (deployAppVersionsToGroup props o log).snd = log ++ t ∧
      ∀ c ∈ t, c.isUpdateEnvironment = true := by
  obtain ⟨t, ht, hp⟩ := settleAll_snd_all (fun c => c.isUpdateEnvironment = true)
    (props.group.environments.map
      (fun env => deploy env props.group.versionProps (props.force.getD false))) o
    (by
      intro t0 ht0 l
      obtain ⟨env, _, henv⟩ := List.mem_map.mp ht0
      subst henv
      obtain ⟨tr, htr, hptr, _⟩ := deploy_snd env props.group.versionProps
        (props.force.getD false) o l
      exact ⟨tr, htr, hptr⟩) log
  exact ⟨t, by rw [datg_snd_eq, ht], hp⟩

/-- In dry-run mode the trigger stage sends nothing and succeeds. -/
theorem datg_dry (props : IDeployToGroupProps) (o : Oracle) (log : List Command)
    (hf : props.force.getD false = false) :
    deployAppVersionsToGroup props o log = (Except.ok (), log) := by
  have hall : settleAll (props.group.environments.map
      (fun env => deploy env props.group.versionProps (props.force.getD false))) o log =
      (Except.ok [], log) := by
    refine settleAll_id _ o ?_ log
    intro t0 ht0 l
    obtain ⟨env, _, henv⟩ := List.mem_map.mp ht0
    subst henv
    rw [hf]
    exact deploy_dry env props.group.versionProps o l
  simp only [deployAppVersionsToGroup, hall]
  rfl

theorem phcPre_snd_eq (props : IDeployToGroupProps) (o : Oracle) (log : List Command) :
    (preDeployHealthcheck props o log).snd =
      (waitForGroupHealthiness (mkHealthProps props
        (props.preDeployHealthCheckProps.getD DEFAULT_HEALTH_CHECK_PROPS) false) o log).snd := by
  simp only [preDeployHealthcheck]
  rcases hw : waitForGroupHealthiness (mkHealthProps props
    (props.preDeployHealthCheckProps.getD DEFAULT_HEALTH_CHECK_PROPS) false) o log with ⟨r, l1⟩
  cases r <;> rfl

theorem phcPost_snd_eq (props : IDeployToGroupProps) (o : Oracle) (log : List Command) :
    (postDeployHealthcheck props o log).snd =
      (waitForGroupHealthiness (mkHealthProps props
        (props.postDeployHealthCheckProps.getD DEFAULT_HEALTH_CHECK_PROPS) true) o log).snd := by
  simp only [postDeployHealthcheck]
  rcases hw : waitForGroupHealthiness (mkHealthProps props
    (props.postDeployHealthCheckProps.getD DEFAULT_HEALTH_CHECK_PROPS) true) o log with ⟨r, l1⟩
  cases r <;> rfl

theorem phcPre_ok (props : IDeployToGroupProps) (o : Oracle) (log : List Command)
    (h : (preDeployHealthcheck props o log).fst = Except.ok ()) :
    (waitForGroupHealthiness (mkHealthProps props
      (props.preDeployHealthCheckProps.getD DEFAULT_HEALTH_CHECK_PROPS) false) o log).fst =
      Except.ok () := by
  simp only [preDeployHealthcheck] at h
  rcases hw : waitForGroupHealthiness (mkHealthProps props
    (props.preDeployHealthCheckProps.getD DEFAULT_HEALTH_CHECK_PROPS) false) o log with ⟨r, l1⟩
  rw [hw] at h
  cases r with
  | ok u => rfl
  | error e => simp at h

theorem phcPost_ok (props : IDeployToGroupProps) (o : Oracle) (log : List Command)
    (h : (postDeployHealthcheck props o log).fst = Except.ok ()) :
    (waitForGroupHealthiness (mkHealthProps props
      (props.postDeployHealthCheckProps.getD DEFAULT_HEALTH_CHECK_PROPS) true) o log).fst =
      Except.ok () := by
  simp only [postDeployHealthcheck] at h
  rcases hw : waitForGroupHealthiness (mkHealthProps props
    (props.postDeployHealthCheckProps.getD DEFAULT_HEALTH_CHECK_PROPS) true) o log with ⟨r, l1⟩
  rw [hw] at h
  cases r with
  | ok u => rfl
  | error e => simp at h

/-- The health gates emit only canonical describe-environments commands. -/
theorem phcPre_snd (props : IDeployToGroupProps) (o : Oracle) (log : List Command) :
    ∃ t, (preDeployHealthcheck props o log).snd = log ++ t ∧
      ∀ c ∈ t, c ∈ canonicalEnvChecks props.group := by
  obtain ⟨t, ht, hp, _⟩ := waitAux_snd (mkHealthProps props
    (props.preDeployHealthCheckProps.getD DEFAULT_HEALTH_CHECK_PROPS) false) o
    (mkHealthProps props (props.preDeployHealthCheckProps.getD DEFAULT_HEALTH_CHECK_PROPS)
      false).attempts log
  exact ⟨t, by rw [phcPre_snd_eq]; exact ht, hp⟩

theorem phcPost_snd (props : IDeployToGroupProps) (o : Oracle) (log : List Command) :
    ∃ t, (postDeployHealthcheck props o log).snd = log ++ t ∧
      ∀ c ∈ t, c ∈ canonicalEnvChecks props.group := by
  obtain ⟨t, ht, hp, _⟩ := waitAux_snd (mkHealthProps props
    (props.postDeployHealthCheckProps.getD DEFAULT_HEALTH_CHECK_PROPS) true) o
    (mkHealthProps props (props.postDeployHealthCheckProps.getD DEFAULT_HEALTH_CHECK_PROPS)
      true).attempts log
  exact ⟨t, by rw [phcPost_snd_eq]; exact ht, hp⟩

theorem canonical_mem_shape (g : IBeanstalkGroup) (c : Command)
    (h : c ∈ canonicalEnvChecks g) :
    c.isDescribeEnvironments = true ∧ c.isDescribeVersions = false ∧
      c.isCreateVersion = false ∧ c.isUpdateEnvironment = false := by
  obtain ⟨b, _, hb⟩ := List.mem_map.mp h
  subst hb
  exact ⟨rfl, rfl, rfl, rfl⟩

theorem datg_sndQ (props : IDeployToGroupProps) (o : Oracle) (log : List Command) :
    ∃ t, (deployAppVersionsToGroup props o log).snd = log ++ t ∧
      ∀ c ∈ t, (c.isUpdateEnvironment = true → props.force.getD false = true) ∧
        (c.isUpdateEnvironment = true ∨ c ∈ canonicalEnvChecks props.group) := by
  cases hf : props.force.getD false with
  | false =>
    rw [datg_dry props o log hf]
    exact ⟨[], by simp, by simp⟩
  | true =>
    obtain ⟨t, ht, hp⟩ := datg_snd props o log
    exact ⟨t, ht, fun c hc => ⟨fun _ => rfl, Or.inl (hp c hc)⟩⟩

theorem deploySteps_snd_eq (props : IDeployToGroupProps) (o : Oracle) (log : List Command) :
    (deploySteps props o log).snd =
      (postDeployHealthcheck props o (deployAppVersionsToGroup props o log).snd).snd := by
  simp only [deploySteps]
  split <;> rfl

theorem deploySteps_sndQ (props : IDeployToGroupProps) (o : Oracle) (log : List Command) :
    ∃ t, (deploySteps props o log).snd = log ++ t ∧
      ∀ c ∈ t, (c.isUpdateEnvironment = true → props.force.getD false = true) ∧
        (c.isUpdateEnvironment = true ∨ c ∈ canonicalEnvChecks props.group) := by
  obtain ⟨t1, ht1, hp1⟩ := datg_sndQ props o log
  obtain ⟨t2, ht2, hp2⟩ := phcPost_snd props o (deployAppVersionsToGroup props o log).snd
  refine ⟨t1 ++ t2, ?_, ?_⟩
  · rw [deploySteps_snd_eq, ht2, ht1]; simp
  · intro c hc
    rcases List.mem_append.mp hc with h | h
    · exact hp1 c h
    · have hshape := canonical_mem_shape props.group c (hp2 c h)
      exact ⟨fun hue => absurd hue (by simp [hshape.2.2.2]), Or.inr (hp2 c h)⟩

theorem deploySteps_ok (props : IDeployToGroupProps) (o : Oracle) (log : List Command)
    (h : (deploySteps props o log).fst = Except.ok ()) :
    (deployAppVersionsToGroup props o log).fst = Except.ok () ∧
      (postDeployHealthcheck props o (deployAppVersionsToGroup props o log).snd).fst =
        Except.ok () := by
  simp only [deploySteps] at h
  cases h1 : (deployAppVersionsToGroup props o log).fst with
  | error e =>
    rw [h1] at h
    simp at h
  | ok u =>
    rw [h1] at h
    cases h2 : (postDeployHealthcheck props o (deployAppVersionsToGroup props o log).snd).fst with
    | error e => rw [h2] at h; simp at h
    | ok u2 => exact ⟨rfl, rfl⟩

theorem preDeploySteps_eq_of_ok (props : IDeployToGroupProps) (o : Oracle) (log : List Command)
    (h : (createAppVersionsForGroup props o log).fst = Except.ok ()) :
    preDeploySteps props o log =
      preDeployHealthcheck props o (createAppVersionsForGroup props o log).snd := by
  simp only [preDeploySteps]
  rcases hc : createAppVersionsForGroup props o log with ⟨r, l1⟩
  rw [hc] at h
  cases r with
  | error e => simp at h
  | ok u => rfl

theorem preDeploySteps_err (props : IDeployToGroupProps) (o : Oracle) (log : List Command)
    (e : Err) (h : (createAppVersionsForGroup props o log).fst = Except.error e) :
    preDeploySteps props o log =
      (Except.error e, (createAppVersionsForGroup props o log).snd) := by
  simp only [preDeploySteps]
  rcases hc : createAppVersionsForGroup props o log with ⟨r, l1⟩
  rw [hc] at h
  simp only at h
  subst h
  rfl

theorem preDeploySteps_ok (props : IDeployToGroupProps) (o : Oracle) (log : List Command)
    (h : (preDeploySteps props o log).fst = Except.ok ()) :
    (createAppVersionsForGroup props o log).fst = Except.ok () ∧
      (preDeployHealthcheck props o (createAppVersionsForGroup props o log).snd).fst =
        Except.ok () := by
  cases h1 : (createAppVersionsForGroup props o log).fst with
  | error e =>
    rw [preDeploySteps_err props o log e h1] at h
    simp at h
  | ok u =>
    cases u
    rw [preDeploySteps_eq_of_ok props o log h1] at h
    exact ⟨rfl, h⟩

theorem preDeploySteps_snd_master (props : IDeployToGroupProps) (o : Oracle)
    (log : List Command) :
    ∃ t1 t2, (preDeploySteps props o log).snd = log ++ t1 ++ t2 ∧
      t1.filter Command.isDescribeVersions = canonicalVersionChecks props.group ∧
      (∀ c ∈ t1, (c.isDescribeVersions || c.isCreateVersion) = true) ∧
      (props.force.getD false = false → t1 = canonicalVersionChecks props.group) ∧
      (∀ c ∈ t2, c ∈ canonicalEnvChecks props.group) := by
  obtain ⟨t1, ht1, hdv, hcv, hall, hdry⟩ := cavfg_snd props o log
  cases h1 : (createAppVersionsForGroup props o log).fst with
  | error e =>
    rw [preDeploySteps_err props o log e h1]
    exact ⟨t1, [], by simp [ht1], hdv, hall, hdry, by simp⟩
  | ok u =>
    cases u
    rw [preDeploySteps_eq_of_ok props o log h1]
    obtain ⟨t2, ht2, hp2⟩ := phcPre_snd props o (createAppVersionsForGroup props o log).snd
    exact ⟨t1, t2, by rw [ht2, ht1], hdv, hall, hdry, hp2⟩

theorem deployToGroup_eq_of_ok (props : IDeployToGroupProps) (o : Oracle) (log : List Command)
    (h : (preDeploySteps props o log).fst = Except.ok ()) :
    deployToGroup props o log = deploySteps props o (preDeploySteps props o log).snd := by
  simp only [deployToGroup]
  rcases hp : preDeploySteps props o log with ⟨r, l1⟩
  rw [hp] at h
  cases r with
  | error e => simp at h
  | ok u => rfl

theorem deployToGroup_pre_err (props : IDeployToGroupProps) (o : Oracle) (log : List Command)
    (e : Err) (h : (preDeploySteps props o log).fst = Except.error e) :
    deployToGroup props o log = (Except.error e, (preDeploySteps props o log).snd) := by
  simp only [deployToGroup]
  rcases hp : preDeploySteps props o log with ⟨r, l1⟩
  rw [hp] at h
  simp only at h
  subst h
  rfl

/-- Master trace decomposition of the whole run: a provisioning part
(describe-versions and create-version commands only, with the canonical
describe-versions calls) followed by a part made of triggers (only in
forced runs) and canonical health describes. -/
theorem deployToGroup_snd_master (props : IDeployToGroupProps) (o : Oracle)
    (log : List Command) :
    ∃ t1 t2, (deployToGroup props o log).snd = log ++ t1 ++ t2 ∧
      t1.filter Command.isDescribeVersions = canonicalVersionChecks props.group ∧
      (∀ c ∈ t1, (c.isDescribeVersions || c.isCreateVersion) = true) ∧
      (props.force.getD false = false → t1 = canonicalVersionChecks props.group) ∧
      (∀ c ∈ t2, (c.isUpdateEnvironment = true → props.force.getD false = true) ∧
        (c.isUpdateEnvironment = true ∨ c ∈ canonicalEnvChecks props.group)) := by
  obtain ⟨t1, t2a, hpre, hdv, hall, hdry, hp2a⟩ := preDeploySteps_snd_master props o log
  cases h1 : (preDeploySteps props o log).fst with
  | error e =>
    rw [deployToGroup_pre_err props o log e h1, hpre]
    refine ⟨t1, t2a, rfl, hdv, hall, hdry, ?_⟩
    intro c hc
    have hshape := canonical_mem_shape props.group c (hp2a c hc)
    exact ⟨fun hue => absurd hue (by simp [hshape.2.2.2]), Or.inr (hp2a c hc)⟩
  | ok u =>
    cases u
    rw [deployToGroup_eq_of_ok props o log h1]
    obtain ⟨t2b, ht2b, hp2b⟩ := deploySteps_sndQ props o (preDeploySteps props o log).snd
    refine ⟨t1, t2a ++ t2b, ?_, hdv, hall, hdry, ?_⟩
    · rw [ht2b, hpre]; simp
    · intro c hc
      rcases List.mem_append.mp hc with h | h
      · have hshape := canonical_mem_shape props.group c (hp2a c h)
        exact ⟨fun hue => absurd hue (by simp [hshape.2.2.2]), Or.inr (hp2a c h)⟩
      · exact hp2b c h

/-- A successful dry run sends exactly the canonical describe-versions
list followed by one canonical describe round per health gate. -/
theorem deployToGroup_dry_ok (props : IDeployToGroupProps) (o : Oracle) (log : List Command)
    (hf : props.force.getD false = false)
    (hok : (deployToGroup props o log).fst = Except.ok ()) :
    (deployToGroup props o log).snd =
      log ++ canonicalVersionChecks props.group ++ canonicalEnvChecks props.group ++
        canonicalEnvChecks props.group := by
  have hpre : (preDeploySteps props o log).fst = Except.ok () := by
    cases h1 : (preDeploySteps props o log).fst with
    | error e => rw [deployToGroup_pre_err props o log e h1] at hok; simp at hok
    | ok u => cases u; rfl
  obtain ⟨hcav, hphc⟩ := preDeploySteps_ok props o log hpre
  obtain ⟨t1, ht1, _, _, _, hdry⟩ := cavfg_snd props o log
  have ht1c : (createAppVersionsForGroup props o log).snd =
      log ++ canonicalVersionChecks props.group := by
    rw [ht1, hdry hf]
  have hpresnd : (preDeploySteps props o log).snd =
      log ++ canonicalVersionChecks props.group ++ canonicalEnvChecks props.group := by
    rw [preDeploySteps_eq_of_ok props o log hcav, phcPre_snd_eq]
    have hw := wait_dry_snd (mkHealthProps props
      (props.preDeployHealthCheckProps.getD DEFAULT_HEALTH_CHECK_PROPS) false) hf o
      (createAppVersionsForGroup props o log).snd (phcPre_ok props o _ hphc)
    rw [hw, ht1c]
    simp [canonicalEnvChecks, mkHealthProps]
  have hds : (deploySteps props o (preDeploySteps props o log).snd).fst = Except.ok () := by
    rw [deployToGroup_eq_of_ok props o log hpre] at hok
    exact hok
  obtain ⟨hdatg, hpost⟩ := deploySteps_ok props o (preDeploySteps props o log).snd hds
  have hdatgsnd : (deployAppVersionsToGroup props o (preDeploySteps props o log).snd).snd =
      (preDeploySteps props o log).snd := by
    rw [datg_dry props o (preDeploySteps props o log).snd hf]
  rw [deployToGroup_eq_of_ok props o log hpre, deploySteps_snd_eq, phcPost_snd_eq]
  have hw := wait_dry_snd (mkHealthProps props
    (props.postDeployHealthCheckProps.getD DEFAULT_HEALTH_CHECK_PROPS) true) hf o
    (deployAppVersionsToGroup props o (preDeploySteps props o log).snd).snd
    (phcPost_ok props o _ hpost)
  rw [hw, hdatgsnd, hpresnd]
  simp [canonicalEnvChecks, mkHealthProps]


/-! ## Basic lemmas: deduplication and classification -/

theorem fod_mem (l : List String) (a : String) :
    a ∈ firstOccurrenceDedup l ↔ a ∈ l := by
  induction l using firstOccurrenceDedup.induct with
  | case1 => simp [firstOccurrenceDedup]
  | case2 b rest ih =>
    rw [firstOccurrenceDedup]
    simp only [List.mem_cons, ih, List.mem_filter]
    constructor
    · rintro (h | ⟨h1, _⟩)
      · exact Or.inl h
      · exact Or.inr h1
    · rintro (h | h1)
      · exact Or.inl h
      · by_cases hab : a = b
        · exact Or.inl hab
        · exact Or.inr ⟨h1, by simp [hab]⟩

theorem fod_nodup (l : List String) : (firstOccurrenceDedup l).Nodup := by
  induction l using firstOccurrenceDedup.induct with
  | case1 => simp [firstOccurrenceDedup]
  | case2 b rest ih =>
    rw [firstOccurrenceDedup]
    refine List.Nodup.cons ?_ ih
    intro hmem
    have h2 := (fod_mem _ b).mp hmem
    simp [List.mem_filter] at h2

theorem dedup_go (xs : List String) :
    ∀ acc : List String,
      xs.foldl (fun acc a => if acc.contains a then acc else acc ++ [a]) acc =
        acc ++ firstOccurrenceDedup (xs.filter (fun b => !(acc.contains b))) := by
  induction xs with
  | nil => intro acc; simp [firstOccurrenceDedup]
  | cons a rest ih =>
    intro acc
    simp only [List.foldl_cons]
    by_cases hmem : acc.contains a = true
    · rw [if_pos hmem, ih acc]
      have ha : a ∈ acc := List.elem_iff.mp hmem
      have hfa : (a :: rest).filter (fun b => !(acc.contains b)) =
          rest.filter (fun b => !(acc.contains b)) := by
        simp [List.filter_cons, ha]
      rw [hfa]
    · rw [if_neg hmem, ih (acc ++ [a])]
      have ha : a ∉ acc := fun hx => hmem (List.elem_iff.mpr hx)
      have hfa : (a :: rest).filter (fun b => !(acc.contains b)) =
          a :: rest.filter (fun b => !(acc.contains b)) := by
        simp [List.filter_cons, ha]
      have hff : rest.filter (fun b => !((acc ++ [a]).contains b)) =
          (rest.filter (fun b => !(acc.contains b))).filter (fun b => b ≠ a) := by
        rw [List.filter_filter]
        apply List.filter_congr
        intro x _
        simp only [List.contains, List.elem_eq_mem, List.mem_append, List.mem_singleton]
        by_cases h1 : x ∈ acc <;> by_cases h2 : x = a <;> simp [h1, h2]
      rw [hfa, firstOccurrenceDedup, hff]
      simp

/-- `createAppVersionsForGroup`'s accumulation is first-occurrence
deduplication of the environments' application names. -/
theorem dedupApps_eq (envs : List IBeanstalkEnvironment) :
    dedupApps envs = firstOccurrenceDedup (envs.map (fun e => e.app)) := by
  have h1 : dedupApps envs =
      (envs.map (fun e => e.app)).foldl
        (fun acc a => if acc.contains a then acc else acc ++ [a]) [] := by
    rw [List.foldl_map]
    rfl
  rw [h1, dedup_go]
  simp

theorem dedupApps_nodup (envs : List IBeanstalkEnvironment) : (dedupApps envs).Nodup := by
  rw [dedupApps_eq]
  exact fod_nodup _

theorem dedupApps_mem (envs : List IBeanstalkEnvironment) (a : String) :
    a ∈ dedupApps envs ↔ a ∈ envs.map (fun e => e.app) := by
  rw [dedupApps_eq]
  exact fod_mem _ a

/-- The deduplicated list has exactly one entry per distinct application
name. -/
theorem dedupApps_length (envs : List IBeanstalkEnvironment) :
    (dedupApps envs).length = (envs.map (fun e => e.app)).toFinset.card := by
  have h1 : (dedupApps envs).toFinset = (envs.map (fun e => e.app)).toFinset := by
    ext x
    simp [List.mem_toFinset, dedupApps_mem]
  rw [← h1, List.toFinset_card_of_nodup (dedupApps_nodup envs)]

theorem classifyEnvironment_eq (us : List String) (lbl : Option String)
    (acc : IBeanstalkHealthStatuses) (d : EnvironmentDescription)
    (h1 : truthyStr d.status = true) (h2 : truthyStr d.healthStatus = true) :
    ∃ m, classifyEnvironment us lbl acc d =
      Except.ok (if isHealthyDesc us lbl d = true
        then ⟨acc.healthy ++ [⟨d, m⟩], acc.unhealthy⟩
        else ⟨acc.healthy, acc.unhealthy ++ [⟨d, m⟩]⟩) := by
  simp only [classifyEnvironment, h1, h2, Bool.and_self, Bool.not_true]
  rw [if_neg (by simp)]
  by_cases hready : ((d.status == some "Ready") && !(us.contains (optStr d.healthStatus))) = true
  · rw [if_pos hready]
    by_cases hver : truthyStr lbl = true
    · rw [if_neg (by simp [hver])]
      by_cases heq : (d.versionLabel == lbl) = true
      · rw [if_pos heq]
        refine ⟨readyHealthyVersionMessage d (optStr lbl), ?_⟩
        rw [if_pos (by unfold isHealthyDesc; rw [hready, hver, heq]; rfl)]
      · rw [if_neg heq]
        rw [Bool.not_eq_true] at heq
        refine ⟨wrongVersionMessage d (optStr lbl), ?_⟩
        rw [if_neg (by unfold isHealthyDesc; rw [hready, hver, heq]; exact Bool.false_ne_true)]
    · rw [if_pos (by simp [hver])]
      rw [Bool.not_eq_true] at hver
      refine ⟨readyHealthyMessage d, ?_⟩
      rw [if_pos (by unfold isHealthyDesc; rw [hready, hver]; rfl)]
  · rw [if_neg hready]
    rw [Bool.not_eq_true] at hready
    refine ⟨notReadyMessage d, ?_⟩
    rw [if_neg (by unfold isHealthyDesc; rw [hready]; exact Bool.false_ne_true)]

theorem geh_go (us : List String) (lbl : Option String) :
    ∀ (envs : List EnvironmentDescription) (acc : IBeanstalkHealthStatuses),
      (∀ d ∈ envs, truthyStr d.status = true ∧ truthyStr d.healthStatus = true) →
      ∃ st, List.foldlM (classifyEnvironment us lbl) acc envs = Except.ok st ∧
        (∀ d, (∃ m, EnvStatusEntry.mk d m ∈ st.healthy) ↔
          ((∃ m, EnvStatusEntry.mk d m ∈ acc.healthy) ∨
            (d ∈ envs ∧ isHealthyDesc us lbl d = true))) ∧
        (∀ d, (∃ m, EnvStatusEntry.mk d m ∈ st.unhealthy) ↔
          ((∃ m, EnvStatusEntry.mk d m ∈ acc.unhealthy) ∨
            (d ∈ envs ∧ isHealthyDesc us lbl d = false))) := by
  intro envs
  induction envs with
  | nil =>
    intro acc h
    exact ⟨acc, rfl, by simp, by simp⟩
  | cons d0 rest ih =>
    intro acc h
    obtain ⟨m0, hm0⟩ := classifyEnvironment_eq us lbl acc d0
      (h d0 (List.mem_cons_self _ _)).1 (h d0 (List.mem_cons_self _ _)).2
    by_cases hh : isHealthyDesc us lbl d0 = true
    · rw [if_pos hh] at hm0
      obtain ⟨st, hst, hH, hU⟩ := ih ⟨acc.healthy ++ [⟨d0, m0⟩], acc.unhealthy⟩
        (fun d hd => h d (List.mem_cons_of_mem _ hd))
      refine ⟨st, ?_, ?_, ?_⟩
      · rw [List.foldlM_cons, hm0]
        exact hst
      · intro d
        rw [hH d]
        simp only [List.mem_append, List.mem_singleton, EnvStatusEntry.mk.injEq]
        constructor
        · rintro (⟨m, hm | ⟨hd, hm⟩⟩ | ⟨hd, hrule⟩)
          · exact Or.inl ⟨m, hm⟩
          · subst hd; exact Or.inr ⟨List.mem_cons_self _ _, hh⟩
          · exact Or.inr ⟨List.mem_cons_of_mem _ hd, hrule⟩
        · rintro (⟨m, hm⟩ | ⟨hd, hrule⟩)
          · exact Or.inl ⟨m, Or.inl hm⟩
          · rcases List.mem_cons.mp hd with hd0 | hdr
            · subst hd0; exact Or.inl ⟨m0, Or.inr ⟨rfl, rfl⟩⟩
            · exact Or.inr ⟨hdr, hrule⟩
      · intro d
        rw [hU d]
        simp only []
        constructor
        · rintro (⟨m, hm⟩ | ⟨hd, hrule⟩)
          · exact Or.inl ⟨m, hm⟩
          · exact Or.inr ⟨List.mem_cons_of_mem _ hd, hrule⟩
        · rintro (⟨m, hm⟩ | ⟨hd, hrule⟩)
          · exact Or.inl ⟨m, hm⟩
          · rcases List.mem_cons.mp hd with hd0 | hdr
            · subst hd0; rw [hh] at hrule; cases hrule
            · exact Or.inr ⟨hdr, hrule⟩
    · rw [if_neg hh] at hm0
      rw [Bool.not_eq_true] at hh
      obtain ⟨st, hst, hH, hU⟩ := ih ⟨acc.healthy, acc.unhealthy ++ [⟨d0, m0⟩]⟩
        (fun d hd => h d (List.mem_cons_of_mem _ hd))
      refine ⟨st, ?_, ?_, ?_⟩
      · rw [List.foldlM_cons, hm0]
        exact hst
      · intro d
        rw [hH d]
        simp only []
        constructor
        · rintro (⟨m, hm⟩ | ⟨hd, hrule⟩)
          · exact Or.inl ⟨m, hm⟩
          · exact Or.inr ⟨List.mem_cons_of_mem _ hd, hrule⟩
        · rintro (⟨m, hm⟩ | ⟨hd, hrule⟩)
          · exact Or.inl ⟨m, hm⟩
          · rcases List.mem_cons.mp hd with hd0 | hdr
            · subst hd0; rw [hh] at hrule; cases hrule
            · exact Or.inr ⟨hdr, hrule⟩
      · intro d
        rw [hU d]
        simp only [List.mem_append, List.mem_singleton, EnvStatusEntry.mk.injEq]
        constructor
        · rintro (⟨m, hm | ⟨hd, hm⟩⟩ | ⟨hd, hrule⟩)
          · exact Or.inl ⟨m, hm⟩
          · subst hd; exact Or.inr ⟨List.mem_cons_self _ _, hh⟩
          · exact Or.inr ⟨List.mem_cons_of_mem _ hd, hrule⟩
        · rintro (⟨m, hm⟩ | ⟨hd, hrule⟩)
          · exact Or.inl ⟨m, Or.inl hm⟩
          · rcases List.mem_cons.mp hd with hd0 | hdr
            · subst hd0; exact Or.inl ⟨m0, Or.inr ⟨rfl, rfl⟩⟩
            · exact Or.inr ⟨hdr, hrule⟩

/-! ## Command shape helpers -/

theorem canonicalVC_mem_shape (g : IBeanstalkGroup) (c : Command)
    (h : c ∈ canonicalVersionChecks g) :
    c.isDescribeVersions = true ∧ c.isCreateVersion = false ∧
      c.isDescribeEnvironments = false ∧ c.isUpdateEnvironment = false := by
  obtain ⟨a, _, ha⟩ := List.mem_map.mp h
  subst ha
  exact ⟨rfl, rfl, rfl, rfl⟩

theorem dvcv_not_ue (c : Command) (h : (c.isDescribeVersions || c.isCreateVersion) = true) :
    c.isUpdateEnvironment = false := by
  cases c <;> simp_all [Command.isDescribeVersions, Command.isCreateVersion,
    Command.isUpdateEnvironment]

theorem dvcv_not_de (c : Command) (h : (c.isDescribeVersions || c.isCreateVersion) = true) :
    c.isDescribeEnvironments = false := by
  cases c <;> simp_all [Command.isDescribeVersions, Command.isCreateVersion,
    Command.isDescribeEnvironments]

theorem ue_not_dv (c : Command) (h : c.isUpdateEnvironment = true) :
    c.isDescribeVersions = false := by
  cases c <;> simp_all [Command.isDescribeVersions, Command.isUpdateEnvironment]

theorem ue_not_de (c : Command) (h : c.isUpdateEnvironment = true) :
    c.isDescribeEnvironments = false := by
  cases c <;> simp_all [Command.isDescribeEnvironments, Command.isUpdateEnvironment]

theorem cavfg_err (props : IDeployToGroupProps) (o : Oracle) (log : List Command)
    (es : List Err)
    (hes : (settleAll ((dedupApps props.group.environments).map
      (fun appName => create props.group.versionProps appName
        (!(props.force.getD false)))) o log).fst = Except.ok es)
    (hne : 0 < es.length) :
    createAppVersionsForGroup props o log =
      (Except.error (Err.dbError asyncFailedMessage es),
       (settleAll ((dedupApps props.group.environments).map
        (fun appName => create props.group.versionProps appName
          (!(props.force.getD false)))) o log).snd) := by
  rcases hsa : settleAll ((dedupApps props.group.environments).map
    (fun appName => create props.group.versionProps appName
      (!(props.force.getD false)))) o log with ⟨r, l1⟩
  rw [hsa] at hes
  simp only at hes
  subst hes
  simp only [createAppVersionsForGroup, hsa]
  rw [if_pos hne]

/-! ## The claims -/

/-- C1: a run with `force=false` (dry run) never sends a create-version or
trigger-deploy command, while the describe-versions call per distinct
application and the describe-environments call per application batch are
still sent with the same ApplicationName / VersionLabels /
EnvironmentNames arguments as the corresponding `force=true` run; a
successful dry run sends exactly the canonical describes. -/
theorem claim_c1_dry_run_call_shape (props : IDeployToGroupProps) (o o2 : Oracle)
    (hf : props.force.getD false = false) : DryRunCallShape props o o2 := by
  obtain ⟨t1, t2, hsnd, hdv, hkinds, hdry, hq⟩ := deployToGroup_snd_master props o []
  obtain ⟨t1b, t2b, hsndb, hdvb, hkindsb, _, hqb⟩ :=
    deployToGroup_snd_master { props with force := some true } o2 []
  simp only [List.nil_append] at hsnd hsndb
  have hUEfalse : ∀ c ∈ t2, c.isUpdateEnvironment = false := by
    intro c hc
    cases hue : c.isUpdateEnvironment with
    | false => rfl
    | true =>
      have := (hq c hc).1 hue
      rw [hf] at this
      cases this
  have ht2canon : ∀ c ∈ t2, c ∈ canonicalEnvChecks props.group := by
    intro c hc
    rcases (hq c hc).2 with h | h
    · rw [hUEfalse c hc] at h; cases h
    · exact h
  refine ⟨?_, ?_, ?_, ?_, ?_, ?_⟩
  · rw [hsnd]
    intro c hc
    rcases List.mem_append.mp hc with h | h
    · have h1 : c ∈ canonicalVersionChecks props.group := by rw [← hdry hf]; exact h
      obtain ⟨_, hcv, _, hue⟩ := canonicalVC_mem_shape props.group c h1
      simp [Command.isWrite, hcv, hue]
    · obtain ⟨_, _, hcv, hue⟩ := canonical_mem_shape props.group c (ht2canon c h)
      simp [Command.isWrite, hcv, hue]
  · rw [hsnd, List.filter_append, hdv]
    have h2 : t2.filter Command.isDescribeVersions = [] := by
      rw [List.filter_eq_nil_iff]
      intro c hc
      rw [(canonical_mem_shape props.group c (ht2canon c hc)).2.1]
      simp
    rw [h2, List.append_nil]
  · rw [hsndb, List.filter_append, hdvb]
    have h2 : t2b.filter Command.isDescribeVersions = [] := by
      rw [List.filter_eq_nil_iff]
      intro c hc
      rcases (hqb c hc).2 with h | h
      · rw [ue_not_dv c h]; simp
      · rw [(canonical_mem_shape _ c h).2.1]; simp
    rw [h2, List.append_nil]
  · rw [hsnd]
    intro c hc hde
    rcases List.mem_append.mp hc with h | h
    · exact absurd hde (by rw [dvcv_not_de c (hkinds c h)]; simp)
    · exact ht2canon c h
  · rw [hsndb]
    intro c hc hde
    rcases List.mem_append.mp hc with h | h
    · exact absurd hde (by rw [dvcv_not_de c (hkindsb c h)]; simp)
    · rcases (hqb c h).2 with h2 | h2
      · exact absurd hde (by rw [ue_not_de c h2]; simp)
      · exact h2
  · intro hok
    have := deployToGroup_dry_ok props o [] hf hok
    rw [this]
    simp

/-- C1 witness: a concrete successful dry run over a two-application
group against an always-healthy client. -/
theorem claim_c1_witness :
    c1Props.force.getD false = false ∧ DryRunCallShape c1Props happyOracle happyOracle :=
  ⟨rfl, claim_c1_dry_run_call_shape c1Props happyOracle happyOracle rfl⟩

/-- C2: version provisioning issues exactly one existence check per
distinct application of the group, in first-occurrence order, and at
most that many create calls, where the number of distinct applications
is the cardinality of the set of application names. -/
theorem claim_c2_dedup_provisioning (props : IDeployToGroupProps) (o : Oracle) :
    ∃ t, (createAppVersionsForGroup props o []).snd = t ∧
      t.filter Command.isDescribeVersions =
        (dedupApps props.group.environments).map (versionCheckCmd props.group) ∧
      dedupApps props.group.environments =
        firstOccurrenceDedup (props.group.environments.map (fun e => e.app)) ∧
      (dedupApps props.group.environments).Nodup ∧
      (t.filter Command.isDescribeVersions).length =
        (props.group.environments.map (fun e => e.app)).toFinset.card ∧
      (t.filter Command.isCreateVersion).length ≤
        (props.group.environments.map (fun e => e.app)).toFinset.card := by
  obtain ⟨t, ht, hdv, hcv, _, _⟩ := cavfg_snd props o []
  simp only [List.nil_append] at ht
  refine ⟨t, ht, hdv, dedupApps_eq _, dedupApps_nodup _, ?_, ?_⟩
  · rw [hdv]
    show ((dedupApps props.group.environments).map (versionCheckCmd props.group)).length = _
    rw [List.length_map, dedupApps_length]
  · calc (t.filter Command.isCreateVersion).length
        ≤ (dedupApps props.group.environments).length := hcv
      _ = (props.group.environments.map (fun e => e.app)).toFinset.card :=
        dedupApps_length _

/-- C3: when the existence check finds the label already registered for
one of the group's applications and `errorIfExists` is set, the run
throws an aggregate containing the `DBCreateApplicationVersionError` for
that application and no trigger-deploy command is ever sent. -/
theorem claim_c3_error_if_exists (props : IDeployToGroupProps) (o : Oracle) (a : String)
    (hE : props.group.versionProps.errorIfExists = true)
    (ha : a ∈ props.group.environments.map (fun e => e.app))
    (ho : ∀ l : List Command, ∃ vs, vs ≠ [] ∧
      o.onDescribeVersions l a [props.group.versionProps.label] = some vs) :
    ∃ errs, (deployToGroup props o []).fst =
        Except.error (Err.dbError asyncFailedMessage errs) ∧
      Err.dbCreateApplicationVersionError a props.group.versionProps.label
        (Err.jsError (alreadyExistsMessage props.group.versionProps.label)) ∈ errs ∧
      ∀ c ∈ (deployToGroup props o []).snd, c.isUpdateEnvironment = false := by
  obtain ⟨es, hes⟩ := settleAll_fst_ok ((dedupApps props.group.environments).map
    (fun appName => create props.group.versionProps appName
      (!(props.force.getD false)))) o []
  have htask : create props.group.versionProps a (!(props.force.getD false)) ∈
      (dedupApps props.group.environments).map
        (fun appName => create props.group.versionProps appName
          (!(props.force.getD false))) :=
    List.mem_map_of_mem _ ((dedupApps_mem _ a).mpr ha)
  have herr : ∀ l : List Command,
      ((create props.group.versionProps a (!(props.force.getD false))) o l).fst =
        Except.error (Err.dbCreateApplicationVersionError a props.group.versionProps.label
          (Err.jsError (alreadyExistsMessage props.group.versionProps.label))) := by
    intro l
    obtain ⟨vs, hne, hvs⟩ := ho l
    rw [create_exists_error props.group.versionProps a _ o l hE vs hvs hne]
  have hmem : Err.dbCreateApplicationVersionError a props.group.versionProps.label
      (Err.jsError (alreadyExistsMessage props.group.versionProps.label)) ∈ es :=
    settleAll_mem_error _ o _ _ htask herr [] es hes
  have hne : 0 < es.length := List.length_pos.mpr (List.ne_nil_of_mem hmem)
  have hcav := cavfg_err props o [] es hes hne
  have hcavfst : (createAppVersionsForGroup props o []).fst =
      Except.error (Err.dbError asyncFailedMessage es) := by rw [hcav]
  have hpre := preDeploySteps_err props o [] _ hcavfst
  have hprefst : (preDeploySteps props o []).fst =
      Except.error (Err.dbError asyncFailedMessage es) := by rw [hpre]
  have hdg := deployToGroup_pre_err props o [] _ hprefst
  refine ⟨es, by rw [hdg], hmem, ?_⟩
  intro c hc
  rw [hdg] at hc
  simp only at hc
  rw [hpre] at hc
  simp only at hc
  obtain ⟨t, ht, _, _, hkinds, _⟩ := cavfg_snd props o []
  rw [ht] at hc
  simp only [List.nil_append] at hc
  exact dvcv_not_ue c (hkinds c hc)

/-- C3 witness: a forced run over two applications where the label
already exists and `errorIfExists` is set. -/
theorem claim_c3_witness :
    existsProps.group.versionProps.errorIfExists = true ∧
    "appA" ∈ existsProps.group.environments.map (fun e => e.app) ∧
    (∃ errs, (deployToGroup existsProps existsOracle []).fst =
        Except.error (Err.dbError asyncFailedMessage errs) ∧
      Err.dbCreateApplicationVersionError "appA" existsProps.group.versionProps.label
        (Err.jsError (alreadyExistsMessage existsProps.group.versionProps.label)) ∈ errs ∧
      ∀ c ∈ (deployToGroup existsProps existsOracle []).snd,
        c.isUpdateEnvironment = false) :=
  ⟨rfl, by decide,
    claim_c3_error_if_exists existsProps existsOracle "appA" rfl (by decide)
      (fun l => ⟨["v1"], by decide, rfl⟩)⟩

/-- C8: when provisioning or the pre-deploy health gate fails,
`deployToGroup` rethrows exactly that failure and no trigger-deploy
command was sent at any point of the run. -/
theorem claim_c8_pre_failure_aborts (props : IDeployToGroupProps) (o : Oracle) (e : Err)
    (h : (preDeploySteps props o []).fst = Except.error e) :
    deployToGroup props o [] = (Except.error e, (preDeploySteps props o []).snd) ∧
    ∀ c ∈ (preDeploySteps props o []).snd, c.isUpdateEnvironment = false := by
  refine ⟨deployToGroup_pre_err props o [] e h, ?_⟩
  obtain ⟨t1, t2, hsnd, _, hkinds, _, hcanon⟩ := preDeploySteps_snd_master props o []
  rw [hsnd]
  simp only [List.nil_append]
  intro c hc
  rcases List.mem_append.mp hc with h1 | h1
  · exact dvcv_not_ue c (hkinds c h1)
  · exact (canonical_mem_shape props.group c (hcanon c h1)).2.2.2

/-- C8 witness: provisioning fails because the label already exists. -/
theorem claim_c8_witness :
    ((preDeploySteps existsProps existsOracle []).fst =
      Except.error (Err.dbError asyncFailedMessage
        [Err.dbCreateApplicationVersionError "appA" "v1"
          (Err.jsError (alreadyExistsMessage "v1")),
         Err.dbCreateApplicationVersionError "appB" "v1"
          (Err.jsError (alreadyExistsMessage "v1"))])) ∧
    (deployToGroup existsProps existsOracle [] =
      (Except.error (Err.dbError asyncFailedMessage
        [Err.dbCreateApplicationVersionError "appA" "v1"
          (Err.jsError (alreadyExistsMessage "v1")),
         Err.dbCreateApplicationVersionError "appB" "v1"
          (Err.jsError (alreadyExistsMessage "v1"))]),
       (preDeploySteps existsProps existsOracle []).snd) ∧
     ∀ c ∈ (preDeploySteps existsProps existsOracle []).snd,
       c.isUpdateEnvironment = false) :=
  ⟨rfl, claim_c8_pre_failure_aborts existsProps existsOracle _ rfl⟩

/-- C9: for every `attempts ≥ 1` the health-check loop terminates within
`attempts` rounds — it either returns successfully or throws a
`DBHealthinessCheckError` — and the fall-through throw after the loop is
unreachable: the loop behaves identically when that branch is replaced. -/
theorem claim_c9_loop_terminates (props : HealthProps) (o : Oracle)
    (h : 1 ≤ props.attempts) :
    (∀ log, waitForGroupHealthiness props o log =
      waitLoopNoFallthrough props props.attempts o log) ∧
    ((waitForGroupHealthiness props o []).fst = Except.ok () ∨
      ∃ msg errs, (waitForGroupHealthiness props o []).fst =
        Except.error (Err.dbHealthinessCheckError msg errs)) ∧
    ((waitForGroupHealthiness props o []).snd.countP Command.isDescribeEnvironments ≤
      props.attempts * (groupEnvsByApp props.group.environments).length) := by
  obtain ⟨n, hn⟩ : ∃ n, props.attempts = n + 1 := ⟨props.attempts - 1, by omega⟩
  refine ⟨?_, ?_, ?_⟩
  · intro log
    simp only [waitForGroupHealthiness]
    rw [hn]
    exact waitAux_eq_noFallthrough props o n log
  · simp only [waitForGroupHealthiness]
    exact waitAux_fst_shape props o props.attempts []
  · obtain ⟨t, ht, hmem, hlen⟩ := waitAux_snd props o props.attempts []
    simp only [waitForGroupHealthiness]
    rw [ht]
    simp only [List.nil_append]
    calc t.countP Command.isDescribeEnvironments ≤ t.length := List.countP_le_length _
      _ ≤ props.attempts * (groupEnvsByApp props.group.environments).length := hlen

/-- C9 witness: five attempts over the two-application group. -/
theorem claim_c9_witness :
    1 ≤ c4wProps.attempts ∧
    ((∀ log, waitForGroupHealthiness c4wProps happyOracle log =
      waitLoopNoFallthrough c4wProps c4wProps.attempts happyOracle log) ∧
    ((waitForGroupHealthiness c4wProps happyOracle []).fst = Except.ok () ∨
      ∃ msg errs, (waitForGroupHealthiness c4wProps happyOracle []).fst =
        Except.error (Err.dbHealthinessCheckError msg errs)) ∧
    ((waitForGroupHealthiness c4wProps happyOracle []).snd.countP
        Command.isDescribeEnvironments ≤
      c4wProps.attempts * (groupEnvsByApp c4wProps.group.environments).length)) :=
  ⟨by decide, claim_c9_loop_terminates c4wProps happyOracle (by decide)⟩

/-- C10 (amended): when the status fetch or classification of an attempt
throws, the wait loop immediately rethrows a `DBHealthinessCheckError`
wrapping exactly that one error, regardless of how many attempts remain. -/
theorem claim_c10_fetch_error_immediate (props : HealthProps) (o : Oracle) (n : Nat)
    (log log1 : List Command) (err : Err)
    (h : getGroupHealth props o log = (Except.error err, log1)) :
    waitForGroupHealthinessAux props (n + 1) o log =
      (Except.error (Err.dbHealthinessCheckError couldNotCheckMessage [err]), log1) :=
  waitAux_wrap props o n log log1 err h

/-- C10 witness: a response without an `Environments` field aborts the
health check on the first of five attempts. -/
theorem claim_c10_witness :
    getGroupHealth c4wProps noEnvsFieldOracle [] =
      (Except.error (Err.jsError (noEnvironmentsMessage "appA")),
       [Command.describeEnvironments "appA" ["envA"]]) ∧
    waitForGroupHealthinessAux c4wProps 5 noEnvsFieldOracle [] =
      (Except.error (Err.dbHealthinessCheckError couldNotCheckMessage
        [Err.jsError (noEnvironmentsMessage "appA")]),
       [Command.describeEnvironments "appA" ["envA"]]) :=
  ⟨rfl, claim_c10_fetch_error_immediate c4wProps noEnvsFieldOracle 4 [] _ _ rfl⟩

/-- C10 counterexample: the retry loop does not re-poll only the
environments classified unhealthy — after attempt 1 classifies envA
healthy and envB unhealthy, attempt 2's describe-environments call still
requests envA as well. -/
theorem claim_c10_counterexample :
    waitForGroupHealthiness c10Props partialUnhealthyOracle [] =
      (Except.ok (), [Command.describeEnvironments "appA" ["envA", "envB"],
        Command.describeEnvironments "appA" ["envA", "envB"]]) ∧
    getEnvironmentsHealth [okDesc "envA" "v1", severeDesc "envB" "v1"]
        AWS_EB_HEALTH_CHECK_UNHEALTHY_STATES none =
      Except.ok ⟨[⟨okDesc "envA" "v1", readyHealthyMessage (okDesc "envA" "v1")⟩],
        [⟨severeDesc "envB" "v1", notReadyMessage (severeDesc "envB" "v1")⟩]⟩ :=
  ⟨rfl, rfl⟩

/-- Reaching an arbitrary batch whose response mis-lengths. -/
theorem gghAux_missing (props : HealthProps) (o : Oracle) (key : String)
    (envs2 : List IBeanstalkEnvironment) (rest : List (String × List IBeanstalkEnvironment))
    (hfail : ∀ h : List Command, ∃ l,
      o.onDescribeEnvironments h key (envs2.map fun e => e.name) = some l ∧
      l.length ≠ envs2.length) :
    ∀ (pre : List (String × List IBeanstalkEnvironment)) (acc : IBeanstalkHealthStatuses)
      (log : List Command),
      (∀ b ∈ pre, ∀ h : List Command, ∃ ds,
        o.onDescribeEnvironments h b.fst (b.snd.map fun e => e.name) = some ds ∧
        ds.length = b.snd.length ∧
        (props.force = true → ∃ part, getEnvironmentsHealth ds
          (props.unhealthyStatuses.getD AWS_EB_HEALTH_CHECK_UNHEALTHY_STATES)
          (if props.checkVersion then some props.group.versionProps.label else none) =
            Except.ok part)) →
      ∃ l, o.onDescribeEnvironments (log ++ pre.map envBatchCmd) key
          (envs2.map fun e => e.name) = some l ∧
        l.length ≠ envs2.length ∧
        getGroupHealthAux props (pre ++ (key, envs2) :: rest) acc o log =
          (Except.error (Err.jsError (missingEnvsMessage ((envs2.map fun e => e.name).filter
            (fun nm => !(l.any (fun d2 => d2.environmentName == some nm)))))),
           log ++ pre.map envBatchCmd ++
             [Command.describeEnvironments key (envs2.map fun e => e.name)]) := by
  intro pre
  induction pre with
  | nil =>
    intro acc log _
    obtain ⟨l, hl, hlen⟩ := hfail log
    refine ⟨l, by simpa using hl, hlen, ?_⟩
    simp only [List.nil_append, List.map_nil, getGroupHealthAux]
    rw [hl]
    simp only []
    rw [if_pos hlen]
    simp
  | cons b pre2 ih =>
    intro acc log hpre
    obtain ⟨key0, envs0⟩ := b
    obtain ⟨ds, hds, hdslen, hcls⟩ := hpre (key0, envs0) (List.mem_cons_self _ _) log
    have hstep : ∀ acc2 : IBeanstalkHealthStatuses,
        (∃ l, o.onDescribeEnvironments
            ((log ++ [Command.describeEnvironments key0 (envs0.map fun e => e.name)]) ++
              pre2.map envBatchCmd) key (envs2.map fun e => e.name) = some l ∧
          l.length ≠ envs2.length ∧
          getGroupHealthAux props (pre2 ++ (key, envs2) :: rest) acc2 o
              (log ++ [Command.describeEnvironments key0 (envs0.map fun e => e.name)]) =
            (Except.error (Err.jsError (missingEnvsMessage ((envs2.map fun e => e.name).filter
              (fun nm => !(l.any (fun d2 => d2.environmentName == some nm)))))),
             (log ++ [Command.describeEnvironments key0 (envs0.map fun e => e.name)]) ++
               pre2.map envBatchCmd ++
               [Command.describeEnvironments key (envs2.map fun e => e.name)])) →
        (∃ l, o.onDescribeEnvironments (log ++ ((key0, envs0) :: pre2).map envBatchCmd) key
            (envs2.map fun e => e.name) = some l ∧
          l.length ≠ envs2.length ∧
          getGroupHealthAux props (pre2 ++ (key, envs2) :: rest) acc2 o
              (log ++ [Command.describeEnvironments key0 (envs0.map fun e => e.name)]) =
            (Except.error (Err.jsError (missingEnvsMessage ((envs2.map fun e => e.name).filter
              (fun nm => !(l.any (fun d2 => d2.environmentName == some nm)))))),
             log ++ ((key0, envs0) :: pre2).map envBatchCmd ++
               [Command.describeEnvironments key (envs2.map fun e => e.name)])) := by
      intro acc2 ⟨l, h1, h2, h3⟩
      refine ⟨l, ?_, h2, ?_⟩
      · rw [List.map_cons]
        simpa [List.append_assoc] using h1
      · rw [h3]
        simp [envBatchCmd, List.append_assoc]
    have hih := fun acc2 => hstep acc2 (ih acc2
      (log ++ [Command.describeEnvironments key0 (envs0.map fun e => e.name)])
      (fun b hb h => hpre b (List.mem_cons_of_mem _ hb) h))
    simp only [List.cons_append, getGroupHealthAux]
    rw [hds]
    simp only []
    rw [if_neg (by simp [hdslen])]
    by_cases hforce : props.force = true
    · rw [if_neg (by simp [hforce])]
      obtain ⟨part, hpart⟩ := hcls hforce
      rw [hpart]
      simp only []
      exact hih ⟨acc.healthy ++ part.healthy, acc.unhealthy ++ part.unhealthy⟩
    · rw [if_pos (by simp [Bool.not_eq_true] at hforce; simp [hforce])]
      exact hih acc

/-- C4 (amended): when the describe-environments response for any one of
the group's application batches returns a list whose length differs from
the number of requested environment names — as happens whenever a
requested environment is omitted and nothing takes its place — the
health check fails immediately, on any attempt, real or dry run alike,
with a `DBHealthinessCheckError` wrapping exactly one error naming the
missing environments, right after that batch's describe command.  The
batches before the failing one are only required to have responded
normally, which is what lets the run reach the failing batch. -/
theorem claim_c4_missing_env (props : HealthProps) (o : Oracle) (n : Nat)
    (log : List Command) (pre : List (String × List IBeanstalkEnvironment)) (key : String)
    (envs2 : List IBeanstalkEnvironment) (rest : List (String × List IBeanstalkEnvironment))
    (hb : groupEnvsByApp props.group.environments = pre ++ (key, envs2) :: rest)
    (hpre : ∀ b ∈ pre, ∀ h : List Command, ∃ ds,
      o.onDescribeEnvironments h b.fst (b.snd.map fun e => e.name) = some ds ∧
      ds.length = b.snd.length ∧
      (props.force = true → ∃ part, getEnvironmentsHealth ds
        (props.unhealthyStatuses.getD AWS_EB_HEALTH_CHECK_UNHEALTHY_STATES)
        (if props.checkVersion then some props.group.versionProps.label else none) =
          Except.ok part))
    (hfail : ∀ h : List Command, ∃ l,
      o.onDescribeEnvironments h key (envs2.map fun e => e.name) = some l ∧
      l.length ≠ envs2.length) :
    ∃ l, o.onDescribeEnvironments (log ++ pre.map envBatchCmd) key
        (envs2.map fun e => e.name) = some l ∧
      l.length ≠ envs2.length ∧
      waitForGroupHealthinessAux props (n + 1) o log =
        (Except.error (Err.dbHealthinessCheckError couldNotCheckMessage
          [Err.jsError (missingEnvsMessage ((envs2.map fun e => e.name).filter (fun nm =>
            !(l.any (fun d2 => d2.environmentName == some nm)))))]),
         log ++ pre.map envBatchCmd ++
           [Command.describeEnvironments key (envs2.map fun e => e.name)]) ∧
      (∀ nm ∈ envs2.map (fun e => e.name),
        (∀ d2 ∈ l, ¬ d2.environmentName = some nm) →
        nm ∈ (envs2.map fun e => e.name).filter (fun nm =>
          !(l.any (fun d2 => d2.environmentName == some nm)))) := by
  obtain ⟨l, hl, hlen, hrec⟩ := gghAux_missing props o key envs2 rest hfail pre ⟨[], []⟩ log hpre
  have hgg : getGroupHealth props o log =
      (Except.error (Err.jsError (missingEnvsMessage ((envs2.map fun e => e.name).filter
        (fun nm => !(l.any (fun d2 => d2.environmentName == some nm)))))),
       log ++ pre.map envBatchCmd ++
         [Command.describeEnvironments key (envs2.map fun e => e.name)]) := by
    simp only [getGroupHealth, hb]
    exact hrec
  refine ⟨l, hl, hlen, waitAux_wrap props o n log _ _ hgg, ?_⟩
  intro nm hnm hnone
  refine List.mem_filter.mpr ⟨hnm, ?_⟩
  have hany : l.any (fun d2 => d2.environmentName == some nm) = false := by
    rw [List.any_eq_false]
    intro d2 hd2
    simp only [beq_iff_eq]
    exact hnone d2 hd2
  rw [hany]
  rfl

/-- C4 witness: in a two-application group, the second application's
batch gets an empty response while the first batch answers normally; the
gate aborts on attempt 1 of 5 with the single missing-environments
error, right after the second batch's describe command. -/
theorem claim_c4_witness :
    groupEnvsByApp c4wProps.group.environments =
      [("appA", [⟨"appA", "envA"⟩])] ++ ("appB", [⟨"appB", "envB"⟩]) :: [] ∧
    (∀ b ∈ [(("appA" : String), [(⟨"appA", "envA"⟩ : IBeanstalkEnvironment)])],
      ∀ h : List Command, ∃ ds,
      secondBatchMissingOracle.onDescribeEnvironments h b.fst
        (b.snd.map fun e => e.name) = some ds ∧
      ds.length = b.snd.length ∧
      (c4wProps.force = true → ∃ part, getEnvironmentsHealth ds
        (c4wProps.unhealthyStatuses.getD AWS_EB_HEALTH_CHECK_UNHEALTHY_STATES)
        (if c4wProps.checkVersion then some c4wProps.group.versionProps.label else none) =
          Except.ok part)) ∧
    (∀ h : List Command, ∃ l,
      secondBatchMissingOracle.onDescribeEnvironments h "appB"
        ([(⟨"appB", "envB"⟩ : IBeanstalkEnvironment)].map fun e => e.name) = some l ∧
      l.length ≠ [(⟨"appB", "envB"⟩ : IBeanstalkEnvironment)].length) ∧
    (∃ l, secondBatchMissingOracle.onDescribeEnvironments
        ([] ++ [(("appA" : String), [(⟨"appA", "envA"⟩ : IBeanstalkEnvironment)])].map envBatchCmd)
        "appB" ([(⟨"appB", "envB"⟩ : IBeanstalkEnvironment)].map fun e => e.name) = some l ∧
      l.length ≠ [(⟨"appB", "envB"⟩ : IBeanstalkEnvironment)].length ∧
      waitForGroupHealthinessAux c4wProps (4 + 1) secondBatchMissingOracle [] =
        (Except.error (Err.dbHealthinessCheckError couldNotCheckMessage
          [Err.jsError (missingEnvsMessage
            (([(⟨"appB", "envB"⟩ : IBeanstalkEnvironment)].map fun e => e.name).filter (fun nm =>
              !(l.any (fun d2 => d2.environmentName == some nm)))))]),
         [] ++ [(("appA" : String), [(⟨"appA", "envA"⟩ : IBeanstalkEnvironment)])].map envBatchCmd ++
           [Command.describeEnvironments "appB"
             ([(⟨"appB", "envB"⟩ : IBeanstalkEnvironment)].map fun e => e.name)]) ∧
      (∀ nm ∈ [(⟨"appB", "envB"⟩ : IBeanstalkEnvironment)].map (fun e => e.name),
        (∀ d2 ∈ l, ¬ d2.environmentName = some nm) →
        nm ∈ ([(⟨"appB", "envB"⟩ : IBeanstalkEnvironment)].map fun e => e.name).filter (fun nm =>
          !(l.any (fun d2 => d2.environmentName == some nm))))) :=
  ⟨rfl,
   by
    intro b hb h
    simp only [List.mem_singleton] at hb
    subst hb
    exact ⟨[okDesc "envA" "v1"], rfl, rfl, fun _ =>
      ⟨⟨[⟨okDesc "envA" "v1", readyHealthyMessage (okDesc "envA" "v1")⟩], []⟩, rfl⟩⟩,
   fun _ => ⟨[], rfl, by decide⟩,
   claim_c4_missing_env c4wProps secondBatchMissingOracle 4 []
     [("appA", [⟨"appA", "envA"⟩])] "appB" [⟨"appB", "envB"⟩] [] rfl
     (by
       intro b hb h
       simp only [List.mem_singleton] at hb
       subst hb
       exact ⟨[okDesc "envA" "v1"], rfl, rfl, fun _ =>
         ⟨⟨[⟨okDesc "envA" "v1", readyHealthyMessage (okDesc "envA" "v1")⟩], []⟩, rfl⟩⟩)
     (fun _ => ⟨[], rfl, by decide⟩)⟩

/-- C4 counterexample: the claim as stated is false — a response that
omits requested environment envA but pads the list back to the requested
length (envB twice) makes the health check succeed instead of failing. -/
theorem claim_c4_counterexample :
    waitForGroupHealthiness c4ceProps dupRespOracle [] =
      (Except.ok (), [Command.describeEnvironments "appA" ["envA", "envB"]]) ∧
    "envA" ∈ c4ceProps.group.environments.map (fun e => e.name) ∧
    (∀ d ∈ [okDesc "envB" "v1", okDesc "envB" "v1"], ¬ d.environmentName = some "envA") ∧
    (∀ l : List Command, dupRespOracle.onDescribeEnvironments l "appA" ["envA", "envB"] =
      some [okDesc "envB" "v1", okDesc "envB" "v1"]) :=
  ⟨rfl, by decide, by decide, fun _ => rfl⟩

/-- C5: with the post-deploy health check configured as 3 attempts and
zero delay, a forced run whose environments are all unhealthy on attempt
1 and all healthy (with the expected version) on attempt 2 sends exactly
2 describe-environments calls for the single application and
`waitForGroupHealthiness` returns successfully. -/
theorem claim_c5_retry_then_success :
    waitForGroupHealthiness c5Props flakyOracle [] =
      (Except.ok (), [Command.describeEnvironments "appA" ["envA", "envB"],
        Command.describeEnvironments "appA" ["envA", "envB"]]) ∧
    [Command.describeEnvironments "appA" ["envA", "envB"],
      Command.describeEnvironments "appA" ["envA", "envB"]].countP
        Command.isDescribeEnvironments = 2 ∧
    c5Props.attempts = 3 ∧ c5Props.timeBetweenAttemptsMs = 0 ∧ c5Props.force = true ∧
    getEnvironmentsHealth [severeDesc "envA" "v1", severeDesc "envB" "v1"]
        AWS_EB_HEALTH_CHECK_UNHEALTHY_STATES (some "v1") =
      Except.ok ⟨[], [⟨severeDesc "envA" "v1", notReadyMessage (severeDesc "envA" "v1")⟩,
        ⟨severeDesc "envB" "v1", notReadyMessage (severeDesc "envB" "v1")⟩]⟩ :=
  ⟨rfl, rfl, rfl, rfl, rfl, rfl⟩

/-- C6 (amended): in a forced run every described environment with
readable Status/HealthStatus is classified healthy iff its status is
Ready, its health code is outside the configured unhealthy set (default
Severe/Degraded/Warning), and — when a non-empty expected version label
is supplied — its VersionLabel equals that label; otherwise it is
classified unhealthy with a per-environment reason entry retained. -/
theorem claim_c6_classification (envs : List EnvironmentDescription) (us : List String)
    (lbl : Option String)
    (h : ∀ d ∈ envs, truthyStr d.status = true ∧ truthyStr d.healthStatus = true) :
    (∃ st, getEnvironmentsHealth envs us lbl = Except.ok st ∧
      (∀ d, (∃ m, EnvStatusEntry.mk d m ∈ st.healthy) ↔
        (d ∈ envs ∧ isHealthyDesc us lbl d = true)) ∧
      (∀ d, (∃ m, EnvStatusEntry.mk d m ∈ st.unhealthy) ↔
        (d ∈ envs ∧ isHealthyDesc us lbl d = false))) ∧
    AWS_EB_HEALTH_CHECK_UNHEALTHY_STATES = ["Severe", "Degraded", "Warning"] := by
  constructor
  · obtain ⟨st, hst, hH, hU⟩ := geh_go us lbl envs ⟨[], []⟩ h
    refine ⟨st, hst, ?_, ?_⟩
    · intro d
      rw [hH d]
      simp
    · intro d
      rw [hU d]
      simp
  · rfl

/-- C6 witness: one healthy description under the default unhealthy set. -/
theorem claim_c6_witness :
    (∀ d ∈ [okDesc "envA" "v1"], truthyStr d.status = true ∧
      truthyStr d.healthStatus = true) ∧
    ((∃ st, getEnvironmentsHealth [okDesc "envA" "v1"]
        AWS_EB_HEALTH_CHECK_UNHEALTHY_STATES (some "v1") = Except.ok st ∧
      (∀ d, (∃ m, EnvStatusEntry.mk d m ∈ st.healthy) ↔
        (d ∈ [okDesc "envA" "v1"] ∧
          isHealthyDesc AWS_EB_HEALTH_CHECK_UNHEALTHY_STATES (some "v1") d = true)) ∧
      (∀ d, (∃ m, EnvStatusEntry.mk d m ∈ st.unhealthy) ↔
        (d ∈ [okDesc "envA" "v1"] ∧
          isHealthyDesc AWS_EB_HEALTH_CHECK_UNHEALTHY_STATES (some "v1") d = false))) ∧
    AWS_EB_HEALTH_CHECK_UNHEALTHY_STATES = ["Severe", "Degraded", "Warning"]) :=
  ⟨by decide, claim_c6_classification [okDesc "envA" "v1"]
    AWS_EB_HEALTH_CHECK_UNHEALTHY_STATES (some "v1") (by decide)⟩

/-- C6 counterexample: the claim as stated is false when the configured
version label is the empty string — with `checkVersion` set, an
environment running a different label is still classified healthy,
because the empty expected label is falsy and disables the comparison. -/
theorem claim_c6_counterexample :
    getGroupHealth c6Props happyOracle [] =
      (Except.ok ⟨[⟨okDesc "envA" "v1", readyHealthyMessage (okDesc "envA" "v1")⟩], []⟩,
       [Command.describeEnvironments "appA" ["envA"]]) ∧
    c6Props.checkVersion = true ∧
    (okDesc "envA" "v1").versionLabel ≠ some c6Props.group.versionProps.label :=
  ⟨rfl, rfl, by decide⟩

/-- C7: in a group of two environments in different applications where
exactly envA's trigger is rejected, the post-deploy gate still describes
both environments (the two describe-environments commands after the two
update-environment commands), and the error finally thrown contains
exactly one `DBTriggerDeployError`, nested inside the
`DBGroupDeployTriggerError`. -/
theorem claim_c7_partial_trigger_failure :
    deployToGroup c7Props failOneTriggerOracle [] =
      (Except.error c7err,
       [Command.describeVersions "appA" ["v1"],
        Command.createVersion "appA" "v1" "test" ⟨"test-bucket", "test-key"⟩,
        Command.describeVersions "appB" ["v1"],
        Command.createVersion "appB" "v1" "test" ⟨"test-bucket", "test-key"⟩,
        Command.describeEnvironments "appA" ["envA"],
        Command.describeEnvironments "appB" ["envB"],
        Command.updateEnvironment "appA" "envA" "v1",
        Command.updateEnvironment "appB" "envB" "v1",
        Command.describeEnvironments "appA" ["envA"],
        Command.describeEnvironments "appB" ["envB"]]) ∧
    countTriggerLeaves c7err = 1 ∧
    c7err = Err.dbError "deploySteps(): "
      [Err.dbGroupDeployTriggerError "deployAppVersionsToGroup: "
        [Err.dbTriggerDeployError "envA" "v1" (Err.jsError triggerFailedMessage)]] :=
  ⟨rfl, rfl, rfl⟩

end DeployBeanstalk
